import Mathlib

/-!
# Verification of the card-grouping engine (`src/store/lib/grouping.ts`)

This file shallowly embeds the grouping/hierarchy engine of the repository and
proves properties of it.  Conventions of the embedding:

* JS strings are modelled as `List Char` (`Str`); string literals are written
  via `str "…" = String.data "…"`.  JS `includes("|")`, `split("|")` and
  `join("|")` become `List` membership, `List.splitOn` and `List.intercalate`.
* JS objects used as insertion-ordered dictionaries (`grouping.data`, the
  `hierarchy` record) are modelled as association lists; property insertion
  appends, property update rewrites in place (`alSet`, `hinsert`).
* JS `Array.prototype.sort` (stable since ES2019) is modelled by `jsSort`,
  a stable insertion sort over the comparator's `≤ 0` relation.
* Lookups that would throw a `TypeError` in JS (a card's `pack_code` missing
  from `metadata.packs`, a sort comparator dereferencing a missing pack or
  cycle) make the embedded function return `none`.
* The collaborators imported from outside the engine's file
  (`./sorting`, `@/utils/formatting`, `@/utils/i18n`, `Intl.Collator`) are not
  part of the analysed sources; they are modelled from the spec as opaque
  function parameters (`SortingModule`, `FormattingModule`, `I18nModule`,
  `Collator`).
* JS arrays are reference values.  The only place reference identity is
  observable is the final in-place `group.cards.sort(sortFunction)` of
  `getGroupedCards`, whose `"none"`-dimension leaves can alias the caller's
  input array.  The ghost field `GroupingResult.aliased` tracks "this group's
  `cards` array is the caller's input array"; it affects no computed value and
  is consumed only by `getGroupedCardsInputAfter`, which reports the content of
  the caller's array after the call.
-/

namespace Arkham

/-- JS strings as sequences of characters. -/
abbrev Str := List Char

/-- Embeds a Lean string literal into the `Str` model. -/
def str (s : String) : Str := s.data

/-- `export const NONE = "none"` (grouping.ts line 19). -/
def NONE : Str := str "none"

/-- `const LEVEL_0 = "level0"` (line 21). -/
def LEVEL_0 : Str := str "level0"

/-- `const UPGRADE = "upgrade"` (line 22). -/
def UPGRADE : Str := str "upgrade"

/-- The fields of `Card` (queries.types) that the grouping engine reads.
Optional/nullable fields are `Option`; numeric fields are integers. -/
structure Card where
  code : Str
  type_code : Str
  subtype_code : Option Str
  faction_code : Str
  faction2_code : Option Str
  xp : Option Int
  cost : Option Int
  encounter_code : Option Str
  pack_code : Str
  real_slot : Option Str
  permanent : Bool
deriving DecidableEq, Repr

/-- A pack record of the metadata store (`Metadata` slice).  The optional JS
field `reprint?` is modelled as a `Bool` (absent = `false`), matching its use
in the truthiness test `reprintPack?.reprint`. -/
structure Pack where
  code : Str
  cycle_code : Str
  position : Int
  reprint : Bool
deriving DecidableEq, Repr

/-- A cycle record of the metadata store. -/
structure Cycle where
  code : Str
  position : Int
deriving DecidableEq, Repr

/-- An encounter-set record of the metadata store. -/
structure EncounterSet where
  name : Str
deriving DecidableEq, Repr

/-- The read-only metadata index: three lookups by code.  A JS property access
on a missing code yields `undefined`, modelled as `none`. -/
structure Metadata where
  packs : Str → Option Pack
  cycles : Str → Option Cycle
  encounterSets : Str → Option EncounterSet

/-- `Intl.Collator.compare`: a three-way locale comparator, external to the
engine.  Modelled from the spec: "a locale-aware string comparator". -/
abbrev Collator := Str → Str → Int

/-- Modelled from the spec: the comparators imported from `./sorting`
(not among the analysed sources).  Only their types are relevant: each is a
JS three-way comparator (negative / zero / positive). -/
structure SortingModule where
  sortTypesByOrder : Str → Str → Int
  sortBySlots : Collator → Str → Str → Int
  sortByFactionOrder : Str → Str → Int
  sortByEncounterSet : Metadata → Collator → Str → Str → Int
  sortNumerical : Int → Int → Int

/-- The `≤`-relation of a JS three-way comparator, as used by a stable
`Array.prototype.sort`. -/
def jsLe (cmp : α → α → Int) (a b : α) : Bool := cmp a b ≤ 0

/-- Stable insertion of an element into a sorted list (the auxiliary step of
`jsSort`). -/
def jsSortInsert (le : α → α → Bool) (a : α) : List α → List α
  | [] => [a]
  | b :: l => if le a b then a :: b :: l else b :: jsSortInsert le a l

/-- `Array.prototype.sort(cmp)` (stable since ES2019), modelled as a stable
insertion sort over the comparator's `≤ 0` relation.  For a consistent
comparator every stable sorting algorithm produces the same array, which is
all the engine relies on; the claims below only use that the result is a
permutation of the input. -/
def jsSort (le : α → α → Bool) : List α → List α
  | [] => []
  | a :: l => jsSortInsert le a (jsSort le l)

/-- JS string truthiness for an optional string field (`card.encounter_code ?`,
`card.faction2_code ?`): `undefined`/`null` and `""` are falsy. -/
def strTruthy : Option Str → Bool
  | Option.none => false
  | some s => !s.isEmpty

/-- `type Key = string | number` (line 44). -/
inductive JKey
  | num (n : Int)
  | str (s : Str)
deriving DecidableEq, Repr

/-- `typeof key === "number" ? key.toString() : key` (line 75). -/
def JKey.toString : JKey → Str
  | .num n => (Int.repr n).data
  | .str s => s

/-- Association-list lookup, modelling a JS object property read. -/
def alGet [DecidableEq K] : List (K × V) → K → Option V
  | [], _ => Option.none
  | (k', v) :: rest, k => if k' = k then some v else alGet rest k

/-- Association-list update of an existing key in place, modelling a JS
property write on a present key. -/
def alSet [DecidableEq K] : List (K × V) → K → V → List (K × V)
  | [], _, _ => []
  | (k', v) :: rest, k, v' => if k' = k then (k', v') :: rest else (k', v) :: alSet rest k v'

/-- Association-list removal, modelling JS `delete obj[key]`. -/
def alRemove [DecidableEq K] : List (K × V) → K → List (K × V)
  | [], _ => []
  | (k', v) :: rest, k => if k' = k then rest else (k', v) :: alRemove rest k

/-- `acc.data[k].push(card)` on a pre-created bucket (the bucket is always
present at the call sites; the `none` fallback is unreachable). -/
def alPush [DecidableEq K] (data : List (K × List Card)) (k : K) (card : Card) :
    List (K × List Card) :=
  match alGet data k with
  | some cs => alSet data k (cs ++ [card])
  | Option.none => data

/-- `type Grouping<K extends Key> = { data; groupings; type }` (lines 46-50). -/
structure Grouping (K : Type) where
  data : List (K × List Card)
  groupings : List K
  type : Str

/-- `GroupingResult` (lines 52-56), plus the ghost aliasing flag (see the file
header): `aliased` records that `cards` is the caller's input array itself. -/
structure GroupingResult where
  cards : List Card
  key : Str
  type : Str
  aliased : Bool
deriving DecidableEq, Repr

/-- `GroupTreeEntry` (lines 58-63). -/
structure GroupTreeEntry where
  key : Str
  type : Str
  count : Nat
  parent : Option Str
deriving DecidableEq, Repr

/-- The `hierarchy` record, an insertion-ordered JS object. -/
abbrev Hier := List (Str × GroupTreeEntry)

/-- `GroupedCards` (lines 65-68). -/
structure GroupedCards where
  data : List GroupingResult
  hierarchy : Hier
deriving DecidableEq, Repr

/-- `toGroupingResult` (lines 70-78): one result per grouping key, in grouping
order.  Fresh arrays only, hence `aliased := false`. -/
def toGroupingResult [DecidableEq K] (ks : K → Str) (grouping : Grouping K) :
    List GroupingResult :=
  grouping.groupings.map (fun key =>
    { cards := (alGet grouping.data key).getD [], key := ks key,
      type := grouping.type, aliased := false })

/-- The loop body of `omitEmptyGroupings` (lines 80-91), transcribed with its
actual control flow: the `for` header increments `i` on every iteration and the
`else` branch increments it a second time, so after keeping a non-empty bucket
the next index is `i + 2`, and after a removal the next index is `i + 1`
(against the shifted list). -/
def omitLoop [DecidableEq K] : Nat → Grouping K → Nat → Grouping K
  | 0, grouping, _ => grouping
  | fuel + 1, grouping, i =>
    if h : i < grouping.groupings.length then
      let key := grouping.groupings[i]
      if ((alGet grouping.data key).getD []).length = 0 then
        omitLoop fuel { grouping with
                         data := alRemove grouping.data key,
                         groupings := grouping.groupings.eraseIdx i } (i + 1)
      else
        omitLoop fuel grouping (i + 2)
    else grouping

/-- `omitEmptyGroupings` (lines 80-91).  The loop runs while
`i < groupings.length`; `groupings.length - i` strictly decreases on every
iteration, so `groupings.length` steps of fuel always suffice, and when the
fuel reaches `0` the guard is already false (both cases return the grouping
unchanged), making `omitLoop` an exact model of the loop. -/
def omitEmptyGroupings [DecidableEq K] (grouping : Grouping K) : Grouping K :=
  omitLoop grouping.groupings.length grouping 0

/-- The repeated reducer body of the bucketing dimensions (e.g. lines 95-105):
append the card to its bucket, creating the bucket and recording its key on a
miss. -/
def addCard [DecidableEq K] (acc : Grouping K) (key : K) (card : Card) : Grouping K :=
  match alGet acc.data key with
  | Option.none =>
      { acc with data := acc.data ++ [(key, [card])], groupings := acc.groupings ++ [key] }
  | some cs => { acc with data := alSet acc.data key (cs ++ [card]) }

/-- `groupByTypeCode` (lines 93-114). -/
def groupByTypeCode (S : SortingModule) (cards : List Card) : List GroupingResult :=
  let result := cards.foldl (fun acc card => addCard acc card.type_code card)
    { data := [], groupings := [], type := str "type" }
  let result := omitEmptyGroupings result
  let result := { result with
                  groupings := jsSort (jsLe S.sortTypesByOrder) result.groupings }
  toGroupingResult id result

/-- `groupBySlots` (lines 116-137). -/
def groupBySlots (S : SortingModule) (cards : List Card) (collator : Collator) :
    List GroupingResult :=
  let result := cards.foldl
    (fun acc card =>
      addCard acc (if card.permanent then str "permanent" else card.real_slot.getD NONE) card)
    { data := [], groupings := [], type := str "slot" }
  let result := omitEmptyGroupings result
  let result := { result with
                  groupings := jsSort (jsLe (S.sortBySlots collator)) result.groupings }
  toGroupingResult id result

/-- The raw numeric value of a `JKey` (only applied to `num` keys; the sort
comparators of `level`/`cost` reach it after ruling out the `NONE` key, which
is the only string key those dimensions create). -/
def JKey.numD : JKey → Int
  | .num n => n
  | .str _ => 0

/-- `groupByLevel` (lines 139-163). -/
def groupByLevel (S : SortingModule) (cards : List Card) : List GroupingResult :=
  let results := cards.foldl
    (fun acc card =>
      addCard acc (match card.xp with
        | some xp => JKey.num xp
        | Option.none => JKey.str NONE) card)
    { data := [], groupings := [], type := str "level" }
  let results := omitEmptyGroupings results
  let results := { results with
                   groupings := jsSort (jsLe (fun a b =>
                     if a = JKey.str NONE then -1
                     else if b = JKey.str NONE then 1
                     else S.sortNumerical a.numD b.numD)) results.groupings }
  toGroupingResult JKey.toString results

/-- `groupByLevel0VsUpgrade` (lines 165-186).  `!card.xp` is true exactly for
an absent experience value or experience `0`, i.e. `card.xp.getD 0 = 0`. -/
def groupByLevel0VsUpgrade (cards : List Card) : List GroupingResult :=
  let results := cards.foldl
    (fun acc card =>
      if card.xp.getD 0 = 0 then { acc with data := alPush acc.data LEVEL_0 card }
      else { acc with data := alPush acc.data UPGRADE card })
    { data := [(LEVEL_0, []), (UPGRADE, [])], groupings := [LEVEL_0, UPGRADE],
      type := str "base_upgrades" }
  toGroupingResult id (omitEmptyGroupings results)

/-- `groupByFaction` (lines 188-209). -/
def groupByFaction (S : SortingModule) (cards : List Card) : List GroupingResult :=
  let results := cards.foldl
    (fun acc card =>
      addCard acc (if strTruthy card.faction2_code then str "multiclass" else card.faction_code)
        card)
    { data := [], groupings := [], type := str "faction" }
  let results := omitEmptyGroupings results
  let results := { results with
                   groupings := jsSort (jsLe S.sortByFactionOrder) results.groupings }
  toGroupingResult id results

/-- `groupByEncounterSet` (lines 211-236). -/
def groupByEncounterSet (S : SortingModule) (cards : List Card) (metadata : Metadata)
    (collator : Collator) : List GroupingResult :=
  let results := cards.foldl
    (fun acc card => addCard acc (card.encounter_code.getD NONE) card)
    { data := [], groupings := [], type := str "encounter_set" }
  let results := omitEmptyGroupings results
  let results := { results with
                   groupings := jsSort (jsLe (S.sortByEncounterSet metadata collator))
                     results.groupings }
  toGroupingResult id results

/-- `groupByCost` (lines 238-262). -/
def groupByCost (S : SortingModule) (cards : List Card) : List GroupingResult :=
  let results := cards.foldl
    (fun acc card =>
      addCard acc (match card.cost with
        | some cost => JKey.num cost
        | Option.none => JKey.str NONE) card)
    { data := [], groupings := [], type := str "cost" }
  let results := omitEmptyGroupings results
  let results := { results with
                   groupings := jsSort (jsLe (fun a b =>
                     if a = JKey.str NONE then -1
                     else if b = JKey.str NONE then 1
                     else S.sortNumerical a.numD b.numD)) results.groupings }
  toGroupingResult JKey.toString results

/-- The bucket key of one card under the `cycle` dimension (lines 267-268):
`metadata.cycles[metadata.packs[card.pack_code].cycle_code].code`, `none` when
a lookup would throw in JS. -/
def cycleKeyOf (metadata : Metadata) (card : Card) : Option Str := do
  let pack ← metadata.packs card.pack_code
  let cycle ← metadata.cycles pack.cycle_code
  some cycle.code

/-- The position of a cycle looked up by code, as read by the sort comparators
of `groupByCycle`/`groupByPack`; the default is unreachable under the guards
below. -/
def cyclePosD (metadata : Metadata) (code : Str) : Int :=
  ((metadata.cycles code).map Cycle.position).getD 0

/-- `groupByCycle` (lines 264-288).  The comparator on line 284 dereferences
`metadata.cycles[a]` for every surviving grouping key; a missing code would
throw, modelled by the `all`-guard. -/
def groupByCycle (cards : List Card) (metadata : Metadata) :
    Option (List GroupingResult) := do
  let results ← cards.foldlM
    (fun acc card => (cycleKeyOf metadata card).map (fun key => addCard acc key card))
    { data := [], groupings := [], type := str "cycle" }
  let results := omitEmptyGroupings results
  if results.groupings.all (fun a => (metadata.cycles a).isSome) then
    some (toGroupingResult id
      { results with
        groupings := jsSort (jsLe (fun a b =>
          cyclePosD metadata a - cyclePosD metadata b)) results.groupings })
  else Option.none

/-- The bucket key of one card under the `pack` dimension (lines 293-309):
the literal pack is replaced by the `<cycle_code>(c|p)` pack when that pack
exists and is a reprint; the bucket key is the chosen pack's `code` field. -/
def packKeyOf (metadata : Metadata) (card : Card) : Option Str := do
  let cardType := if strTruthy card.encounter_code then str "encounter" else str "player"
  let pack ← metadata.packs card.pack_code
  let reprintPackCode := pack.cycle_code ++ (if cardType = str "encounter" then ['c'] else ['p'])
  let pack := match metadata.packs reprintPackCode with
    | some reprintPack => if reprintPack.reprint then reprintPack else pack
    | Option.none => pack
  some pack.code

/-- The (cycle position, pack position) sort rank of a grouping key of
`groupByPack` (lines 318-327); defaults unreachable under the guard. -/
def packRankD (metadata : Metadata) (code : Str) : Int × Int :=
  (cyclePosD metadata (((metadata.packs code).map Pack.cycle_code).getD []),
   ((metadata.packs code).map Pack.position).getD 0)

/-- `groupByPack` (lines 290-330).  The comparator on lines 318-327
dereferences `metadata.packs[a]` and the pack's cycle for every surviving
grouping key; a missing code would throw, modelled by the `all`-guard. -/
def groupByPack (cards : List Card) (metadata : Metadata) :
    Option (List GroupingResult) := do
  let results ← cards.foldlM
    (fun acc card => (packKeyOf metadata card).map (fun key => addCard acc key card))
    { data := [], groupings := [], type := str "pack" }
  let results := omitEmptyGroupings results
  if results.groupings.all (fun a =>
      ((metadata.packs a).bind (fun p => metadata.cycles p.cycle_code)).isSome) then
    some (toGroupingResult id
      { results with
        groupings := jsSort (jsLe (fun a b =>
          if (packRankD metadata a).1 ≠ (packRankD metadata b).1 then
            (packRankD metadata a).1 - (packRankD metadata b).1
          else (packRankD metadata a).2 - (packRankD metadata b).2)) results.groupings })
  else Option.none

/-- `groupBySubtypeCode` (lines 332-353): three pre-created buckets in fixed
order; a card is appended only when its bucket exists (`if (acc.data[subtype])`),
so other subtype codes are dropped. -/
def groupBySubtypeCode (cards : List Card) : List GroupingResult :=
  let results := cards.foldl
    (fun acc card =>
      match alGet acc.data (card.subtype_code.getD NONE) with
      | some cs => { acc with data := alSet acc.data (card.subtype_code.getD NONE) (cs ++ [card]) }
      | Option.none => acc)
    { data := [(NONE, []), (str "weakness", []), (str "basicweakness", [])],
      groupings := [NONE, str "weakness", str "basicweakness"],
      type := str "subtype" }
  toGroupingResult id (omitEmptyGroupings results)

/-- `type GroupingType` (lists.types, external): the closed enumeration of
grouping dimensions handled by `applyGrouping` (lines 361-391). -/
inductive GroupingType
  | none
  | subtype
  | type
  | slot
  | level
  | base_upgrades
  | faction
  | encounter_set
  | cost
  | cycle
  | pack
deriving DecidableEq, Repr

/-- `applyGrouping` (lines 355-392).  The `"none"` case returns the argument
array itself as the single group's `cards` (hence `aliased := true`). -/
def applyGrouping (S : SortingModule) (cards : List Card) (grouping : GroupingType)
    (metadata : Metadata) (collator : Collator) : Option (List GroupingResult) :=
  match grouping with
  | .none => some [{ cards := cards, key := str "all", type := str "none", aliased := true }]
  | .subtype => some (groupBySubtypeCode cards)
  | .type => some (groupByTypeCode S cards)
  | .slot => some (groupBySlots S cards collator)
  | .level => some (groupByLevel S cards)
  | .base_upgrades => some (groupByLevel0VsUpgrade cards)
  | .faction => some (groupByFaction S cards)
  | .encounter_set => some (groupByEncounterSet S cards metadata collator)
  | .cost => some (groupByCost S cards)
  | .cycle => groupByCycle cards metadata
  | .pack => groupByPack cards metadata

/-- The separator of composite group keys. -/
def barChar : Char := '|'

/-- `hierarchy[key] = entry`: overwrite in place when present, append when new
(JS object property semantics). -/
def hinsert (h : Hier) (k : Str) (e : GroupTreeEntry) : Hier :=
  match alGet h k with
  | some _ => h.map (fun kv => if kv.1 = k then (k, e) else kv)
  | Option.none => h ++ [(k, e)]

/-- Lines 416-418: `group.key.includes("|") ?
group.key.split("|").slice(0, -1).join("|") : null`. -/
def splitParent (key : Str) : Option Str :=
  if barChar ∈ key then
    some (List.intercalate [barChar] ((key.splitOn barChar).dropLast))
  else Option.none

/-- Lines 427-436: partition one group's cards along the pass dimension and
prefix each child's key/type path with the parent's.  The ghost flag: a child's
array is the caller's input array iff the child aliases `group.cards`
(only the `"none"` dimension) and `group.cards` is itself the input array. -/
def expandGroup (S : SortingModule) (grouping : GroupingType) (metadata : Metadata)
    (collator : Collator) (group : GroupingResult) : Option (List GroupingResult) :=
  (applyGrouping S group.cards grouping metadata collator).map
    (List.map (fun g =>
      { cards := g.cards, key := group.key ++ barChar :: g.key,
        type := group.type ++ barChar :: g.type, aliased := g.aliased && group.aliased }))

/-- The `while (j < data.length)` loop of one expansion pass (lines 411-449):
record the entry of the group at the cursor, record one entry per expanded
child, splice the children into the list at the group's position, and move the
cursor past them. -/
def expandPass (S : SortingModule) (grouping : GroupingType) (metadata : Metadata)
    (collator : Collator) : List GroupingResult → Hier → Option (List GroupingResult × Hier)
  | [], hierarchy => some ([], hierarchy)
  | group :: rest, hierarchy =>
    match expandGroup S grouping metadata collator group with
    | Option.none => Option.none
    | some expanded =>
      match expandPass S grouping metadata collator rest
          (expanded.foldl
            (fun h g => hinsert h g.key
              { key := g.key, type := g.type, count := g.cards.length,
                parent := some group.key })
            (hinsert hierarchy group.key
              { key := group.key, type := group.type, count := group.cards.length,
                parent := splitParent group.key })) with
      | Option.none => Option.none
      | some (rest', h') => some (expanded ++ rest', h')

/-- `getGroupedCards` (lines 394-467) up to, but not including, the final
in-place sort of each leaf group's cards. -/
def getGroupedCardsData (S : SortingModule) (_groupings : List GroupingType)
    (cards : List Card) (metadata : Metadata) (collator : Collator) :
    Option (List GroupingResult × Hier) := do
  let groupings := if _groupings.isEmpty then [GroupingType.none] else _groupings
  let data ← applyGrouping S cards (groupings.headD GroupingType.none) metadata collator
  if 1 < groupings.length then
    groupings.tail.foldlM
      (fun acc grouping => expandPass S grouping metadata collator acc.1 acc.2)
      (data, ([] : Hier))
  else
    pure (data, data.foldl
      (fun h group => hinsert h group.key
        { key := group.key, type := group.type, count := group.cards.length,
          parent := Option.none })
      [])

/-- `getGroupedCards` (lines 394-467): the returned structure, with every leaf
group's cards sorted by the caller's comparator (line 463). -/
def getGroupedCards (S : SortingModule) (_groupings : List GroupingType)
    (cards : List Card) (sortFunction : Card → Card → Int) (metadata : Metadata)
    (collator : Collator) : Option GroupedCards :=
  (getGroupedCardsData S _groupings cards metadata collator).map (fun r =>
    { data := r.1.map (fun g => { g with cards := jsSort (jsLe sortFunction) g.cards }),
      hierarchy := r.2 })

/-- The content of the caller's `cards` array after `getGroupedCards` returns:
the final loop sorts every leaf group's array in place (line 463), so if some
leaf's array is the caller's array itself (ghost flag), the caller's array now
holds that leaf's cards in sorted order; otherwise it is untouched.  A `none`
result models a thrown lookup error, which occurs before any in-place sort. -/
def getGroupedCardsInputAfter (S : SortingModule) (_groupings : List GroupingType)
    (cards : List Card) (sortFunction : Card → Card → Int) (metadata : Metadata)
    (collator : Collator) : List Card :=
  match getGroupedCardsData S _groupings cards metadata collator with
  | some r => r.1.foldl
      (fun arr g => if g.aliased then jsSort (jsLe sortFunction) g.cards else arr) cards
  | Option.none => cards

/-- Modelled from the spec: the localization resolver of `@/utils/i18n`
(`translate(key, params) -> string`); parameters are passed as key/value
pairs. -/
structure I18nModule where
  t : Str → List (Str × Str) → Str

/-- Modelled from the spec: the name formatters of `@/utils/formatting`
(`displayPackName`, `shortenPackName`, `formatSlots`), which may yield no
name (`?? ""` at the call sites). -/
structure FormattingModule where
  displayPackName : Option Cycle → Option Str
  shortenPackName : Option Pack → Option Str
  formatSlots : Str → Str

/-- `getGroupingKeyLabel` (lines 469-533): a switch on the dimension-type
string.  Note that `case "default":` matches the literal string `"default"`;
an unhandled type string falls through to the final `return ""`. -/
def getGroupingKeyLabel (I : I18nModule) (F : FormattingModule) (type segment : Str)
    (metadata : Metadata) : Str :=
  if type = str "none" then I.t (str "lists.all_cards") []
  else if type = str "subtype" then
    if segment = NONE then [] else I.t (str "common.subtype." ++ segment) []
  else if type = str "type" then I.t (str "common.type." ++ segment) [(str "count", str "1")]
  else if type = str "cycle" then (F.displayPackName (metadata.cycles segment)).getD []
  else if type = str "encounter_set" then
    ((metadata.encounterSets segment).map EncounterSet.name).getD []
  else if type = str "slot" then
    if segment = NONE then I.t (str "common.slot.none") []
    else if segment = str "permanent" then I.t (str "common.permanent") []
    else F.formatSlots segment
  else if type = str "level" then
    if segment = NONE then I.t (str "common.level.none") []
    else I.t (str "common.level.value") [(str "level", segment)]
  else if type = str "cost" then
    if segment = NONE then I.t (str "common.cost.none") []
    else if segment = str "-2" then I.t (str "common.cost.x") []
    else I.t (str "common.cost.value") [(str "cost", segment)]
  else if type = str "faction" then I.t (str "common.factions." ++ segment) []
  else if type = str "base_upgrades" then
    if segment = LEVEL_0 then I.t (str "common.level.base") []
    else if segment = UPGRADE then I.t (str "common.level.upgrades") []
    else []
  else if type = str "pack" then (F.shortenPackName (metadata.packs segment)).getD []
  else if type = str "default" then segment
  else []

/-! ### Auxiliary definitions (predicates and concrete fixtures) -/

/-- The truthiness of JS `!card.xp` (line 168), i.e. the card counts as
level 0: experience absent or equal to `0`. -/
def xpFalsy (c : Card) : Bool := c.xp.getD 0 = 0

/-- The subtype bucket key of a card: `card.subtype_code ?? NONE` (line 335). -/
def subKey (c : Card) : Str := c.subtype_code.getD NONE

/-- The string image of the `GroupingType` enumeration: the dimension-type
strings recognized as grouping dimensions. -/
def groupingTypeStrings : List Str :=
  [str "none", str "subtype", str "type", str "slot", str "level",
   str "base_upgrades", str "faction", str "encounter_set", str "cost",
   str "cycle", str "pack"]

/-- Well-formedness of an intermediate `Grouping`: the dictionary rows are in
bijection with the `groupings` key list (same keys, same order, no
duplicates).  Every grouping the engine builds satisfies this. -/
def gWF [DecidableEq K] (g : Grouping K) : Prop :=
  g.data.map Prod.fst = g.groupings ∧ g.groupings.Nodup

/-- All cards stored in a grouping's buckets, in dictionary order. -/
def gflat [DecidableEq K] (g : Grouping K) : List Card :=
  (g.data.map Prod.snd).flatten

/-- A bucket's contents (empty when absent). -/
def bucket [DecidableEq K] (g : Grouping K) (k : K) : List Card :=
  (alGet g.data k).getD []

/-- A sorting module with trivial comparators except numeric subtraction. -/
def S0 : SortingModule :=
  { sortTypesByOrder := fun _ _ => 0
    sortBySlots := fun _ _ _ => 0
    sortByFactionOrder := fun _ _ => 0
    sortByEncounterSet := fun _ _ _ _ => 0
    sortNumerical := fun a b => a - b }

/-- A trivial collator. -/
def coll0 : Collator := fun _ _ => 0

/-- An empty metadata index. -/
def meta0 : Metadata :=
  { packs := fun _ => Option.none
    cycles := fun _ => Option.none
    encounterSets := fun _ => Option.none }

/-- A baseline player card used by concrete scenarios. -/
def baseCard : Card :=
  { code := str "a", type_code := str "asset", subtype_code := Option.none
    faction_code := str "guardian", faction2_code := Option.none
    xp := Option.none, cost := Option.none, encounter_code := Option.none
    pack_code := str "core", real_slot := Option.none, permanent := false }

/-- A second card, distinguishable from `baseCard` by its code. -/
def cardB : Card := { baseCard with code := str "b" }

/-- A comparator under which `cardB` sorts strictly before every other card. -/
def sortBFirst : Card → Card → Int :=
  fun a _ => if a.code = str "b" then -1 else 1

/-- A translator that echoes the lookup key (as e.g. i18next does for a
missing translation). -/
def i18nEcho : I18nModule := { t := fun k _ => k }

/-- Scenario C metadata: pack `"abc"` in cycle `"abc"`, with the reprint pack
`"abcc"` (= cycle code + `"c"`) present and marked as a reprint. -/
def metaC : Metadata :=
  { packs := fun k =>
      if k = str "abc" then some { code := str "abc", cycle_code := str "abc",
                                   position := 1, reprint := false }
      else if k = str "abcc" then some { code := str "abcc", cycle_code := str "abc",
                                         position := 2, reprint := true }
      else Option.none
    cycles := fun k =>
      if k = str "abc" then some { code := str "abc", position := 1 } else Option.none
    encounterSets := fun _ => Option.none }

/-- Scenario C card: an encounter card whose literal pack is `"abc"`. -/
def cardC : Card :=
  { baseCard with code := str "e1", encounter_code := some (str "set1"),
                  pack_code := str "abc" }

/-- Formatters that yield no display name and echo slots. -/
def fmt0 : FormattingModule :=
  { displayPackName := fun _ => Option.none
    shortenPackName := fun _ => Option.none
    formatSlots := fun s => s }

/-! ### Permutation property of the sort model -/

lemma jsSortInsert_perm (le : α → α → Bool) (a : α) (l : List α) :
    (jsSortInsert le a l).Perm (a :: l) := by
  induction l with
  | nil => exact List.Perm.refl _
  | cons b bs ih =>
      unfold jsSortInsert
      by_cases h : le a b = true
      · rw [if_pos h]
      · rw [if_neg h]
        exact (ih.cons b).trans (List.Perm.swap a b bs)

lemma jsSort_perm (le : α → α → Bool) (l : List α) : (jsSort le l).Perm l := by
  induction l with
  | nil => exact List.Perm.refl _
  | cons a as ih =>
      unfold jsSort
      exact (jsSortInsert_perm le a (jsSort le as)).trans (ih.cons a)

/-! ### The `base_upgrades` partition in closed form -/

lemma baseUpgradesFold (cards : List Card) (a b : List Card) (gs : List Str) (t : Str) :
    cards.foldl
      (fun (acc : Grouping Str) card =>
        if card.xp.getD 0 = 0 then { acc with data := alPush acc.data LEVEL_0 card }
        else { acc with data := alPush acc.data UPGRADE card })
      { data := [(LEVEL_0, a), (UPGRADE, b)], groupings := gs, type := t } =
    { data := [(LEVEL_0, a ++ cards.filter xpFalsy),
               (UPGRADE, b ++ cards.filter (fun c => !xpFalsy c))],
      groupings := gs, type := t } := by
  induction cards generalizing a b with
  | nil => simp
  | cons c cs ih =>
      have hne : ¬(LEVEL_0 = UPGRADE) := by decide
      simp only [List.foldl_cons, List.filter_cons]
      by_cases h : c.xp.getD 0 = 0
      · have hx : xpFalsy c = true := by simp [xpFalsy, h]
        rw [if_pos h]
        have hstep : alPush [(LEVEL_0, a), (UPGRADE, b)] LEVEL_0 c =
            [(LEVEL_0, a ++ [c]), (UPGRADE, b)] := by
          simp [alPush, alGet, alSet]
        rw [hstep, ih (a ++ [c]) b]
        simp [hx, List.append_assoc]
      · have hx : xpFalsy c = false := by simp [xpFalsy, h]
        rw [if_neg h]
        have hstep : alPush [(LEVEL_0, a), (UPGRADE, b)] UPGRADE c =
            [(LEVEL_0, a), (UPGRADE, b ++ [c])] := by
          simp [alPush, alGet, alSet, hne]
        rw [hstep, ih a (b ++ [c])]
        simp [hx, List.append_assoc]

lemma omitEmpty_two_buckets (l0 up : List Card) (t : Str) :
    omitEmptyGroupings
      { data := [(LEVEL_0, l0), (UPGRADE, up)], groupings := [LEVEL_0, UPGRADE], type := t } =
    (if l0 = [] then { data := [(UPGRADE, up)], groupings := [UPGRADE], type := t }
     else { data := [(LEVEL_0, l0), (UPGRADE, up)], groupings := [LEVEL_0, UPGRADE], type := t }
     : Grouping Str) := by
  have hne : ¬(LEVEL_0 = UPGRADE) := by decide
  by_cases h : l0 = [] <;>
    simp [omitEmptyGroupings, omitLoop, alGet, alRemove, h, hne, List.eraseIdx,
      List.length_eq_zero]

/-- The full closed form of `groupByLevel0VsUpgrade`: the two fixed buckets
hold the level-0 and upgrade cards; the `level0` bucket is dropped when empty,
but (because the skip in the `omitEmptyGroupings` loop never examines the
second bucket after keeping the first) the `upgrade` bucket is returned even
when empty. -/
lemma groupByLevel0VsUpgrade_eq (cards : List Card) :
    groupByLevel0VsUpgrade cards =
      (if cards.filter xpFalsy = [] then
        [{ cards := cards.filter (fun c => !xpFalsy c), key := UPGRADE,
           type := str "base_upgrades", aliased := false }]
      else
        [{ cards := cards.filter xpFalsy, key := LEVEL_0,
           type := str "base_upgrades", aliased := false },
         { cards := cards.filter (fun c => !xpFalsy c), key := UPGRADE,
           type := str "base_upgrades", aliased := false }]) := by
  unfold groupByLevel0VsUpgrade
  rw [baseUpgradesFold cards [] [] [LEVEL_0, UPGRADE] (str "base_upgrades")]
  simp only [List.nil_append]
  rw [omitEmpty_two_buckets]
  by_cases h : cards.filter xpFalsy = []
  · simp only [h, if_pos, toGroupingResult, List.map_cons, List.map_nil, alGet]
    have hne : ¬(LEVEL_0 = UPGRADE) := by decide
    simp [hne]
  · have hne : ¬(LEVEL_0 = UPGRADE) := by decide
    simp only [h, if_neg, toGroupingResult, List.map_cons, List.map_nil, alGet, if_pos rfl]
    simp [hne]

/-- C10: under the `base_upgrades` dimension, a card is placed in the `level0`
bucket exactly when its experience value is absent or `0` (any falsy `xp`), and
in the `upgrade` bucket exactly when its experience is a nonzero number; cards
with experience `0` and cards without an experience value satisfy the same
bucket predicate and are therefore indistinguishable to this dimension. -/
theorem c10_base_upgrades_bucketing (cards : List Card) :
    (((groupByLevel0VsUpgrade cards).filter (fun g => g.key = LEVEL_0)).flatMap
        GroupingResult.cards = cards.filter xpFalsy) ∧
    (((groupByLevel0VsUpgrade cards).filter (fun g => g.key = UPGRADE)).flatMap
        GroupingResult.cards = cards.filter (fun c => !xpFalsy c)) ∧
    (∀ c : Card, xpFalsy c = true ↔ (c.xp = Option.none ∨ c.xp = some 0)) ∧
    (∀ c : Card, xpFalsy c = false ↔ ∃ n : Int, c.xp = some n ∧ n ≠ 0) := by
  have hne : ¬(LEVEL_0 = UPGRADE) := by decide
  have hne' : ¬(UPGRADE = LEVEL_0) := by decide
  refine ⟨?_, ?_, ?_, ?_⟩
  · rw [groupByLevel0VsUpgrade_eq]
    by_cases h : cards.filter xpFalsy = [] <;>
      simp [h, List.filter_cons, hne, hne']
  · rw [groupByLevel0VsUpgrade_eq]
    by_cases h : cards.filter xpFalsy = [] <;>
      simp [h, List.filter_cons, hne, hne']
  · intro c
    cases hxp : c.xp with
    | none => simp [xpFalsy, hxp]
    | some n => simp [xpFalsy, hxp]
  · intro c
    cases hxp : c.xp with
    | none => simp [xpFalsy, hxp]
    | some n => simp [xpFalsy, hxp]

/-- C2 (failing input): `omitEmptyGroupings` is meant to drop empty buckets,
but its loop advances the index twice after keeping a bucket, so with a single
level-0 card the pre-created `upgrade` bucket is never examined and an empty
`GroupingResult` is returned to the caller. -/
theorem c2_empty_upgrade_group_returned :
    applyGrouping S0 [baseCard] GroupingType.base_upgrades meta0 coll0 =
      some [{ cards := [baseCard], key := LEVEL_0, type := str "base_upgrades",
              aliased := false },
            { cards := [], key := UPGRADE, type := str "base_upgrades",
              aliased := false }] := by
  decide

/-- C9: a call with the empty dimension list behaves exactly like a call with
`["none"]`: one leaf group with key `"all"`, type `"none"`, holding all input
cards (the leaf is the input array sorted by the caller's comparator). -/
theorem c9_empty_dimensions_default (S : SortingModule) (cards : List Card)
    (sortFunction : Card → Card → Int) (metadata : Metadata) (collator : Collator) :
    getGroupedCards S [] cards sortFunction metadata collator =
      getGroupedCards S [GroupingType.none] cards sortFunction metadata collator ∧
    ∃ sorted : List Card, sorted.Perm cards ∧
      getGroupedCards S [] cards sortFunction metadata collator =
        some { data := [{ cards := sorted, key := str "all", type := str "none",
                          aliased := true }],
               hierarchy := [(str "all",
                 { key := str "all", type := str "none", count := cards.length,
                   parent := Option.none })] } := by
  constructor
  · rfl
  · refine ⟨jsSort (jsLe sortFunction) cards, jsSort_perm (jsLe sortFunction) cards, ?_⟩
    simp [getGroupedCards, getGroupedCardsData, applyGrouping, hinsert, alGet]

/-! ### The `subtype` partition in closed form -/

lemma subtypeFold (cards : List Card) (a b c : List Card) (gs : List Str) (t : Str) :
    cards.foldl
      (fun (acc : Grouping Str) card =>
        match alGet acc.data (card.subtype_code.getD NONE) with
        | some cs =>
            { acc with data := alSet acc.data (card.subtype_code.getD NONE) (cs ++ [card]) }
        | Option.none => acc)
      { data := [(NONE, a), (str "weakness", b), (str "basicweakness", c)],
        groupings := gs, type := t } =
    { data := [(NONE, a ++ cards.filter (fun x => subKey x = NONE)),
               (str "weakness", b ++ cards.filter (fun x => subKey x = str "weakness")),
               (str "basicweakness",
                c ++ cards.filter (fun x => subKey x = str "basicweakness"))],
      groupings := gs, type := t } := by
  have hNW : ¬(NONE = str "weakness") := by decide
  have hNB : ¬(NONE = str "basicweakness") := by decide
  have hWB : ¬(str "weakness" = str "basicweakness") := by decide
  have hWN : ¬(str "weakness" = NONE) := by decide
  have hBN : ¬(str "basicweakness" = NONE) := by decide
  have hBW : ¬(str "basicweakness" = str "weakness") := by decide
  induction cards generalizing a b c with
  | nil => simp
  | cons x xs ih =>
      simp only [List.foldl_cons, List.filter_cons]
      by_cases h1 : x.subtype_code.getD NONE = NONE
      · have hget : alGet [(NONE, a), (str "weakness", b), (str "basicweakness", c)] NONE =
            some a := by simp [alGet]
        have hset : alSet [(NONE, a), (str "weakness", b), (str "basicweakness", c)] NONE
            (a ++ [x]) = [(NONE, a ++ [x]), (str "weakness", b), (str "basicweakness", c)] := by
          simp [alSet]
        simp only [h1, hget, hset]
        rw [ih (a ++ [x]) b c]
        simp [subKey, h1, hNW, hNB, hWN, hBN, List.append_assoc]
      · by_cases h2 : x.subtype_code.getD NONE = str "weakness"
        · have hget : alGet [(NONE, a), (str "weakness", b), (str "basicweakness", c)]
              (str "weakness") = some b := by simp [alGet, hNW]
          have hset : alSet [(NONE, a), (str "weakness", b), (str "basicweakness", c)]
              (str "weakness") (b ++ [x]) =
              [(NONE, a), (str "weakness", b ++ [x]), (str "basicweakness", c)] := by
            simp [alSet, hNW]
          simp only [h2, hget, hset]
          rw [ih a (b ++ [x]) c]
          simp [subKey, h2, hNW, hWB, hWN, hBW, List.append_assoc]
        · by_cases h3 : x.subtype_code.getD NONE = str "basicweakness"
          · have hget : alGet [(NONE, a), (str "weakness", b), (str "basicweakness", c)]
                (str "basicweakness") = some c := by simp [alGet, hNB, hWB]
            have hset : alSet [(NONE, a), (str "weakness", b), (str "basicweakness", c)]
                (str "basicweakness") (c ++ [x]) =
                [(NONE, a), (str "weakness", b), (str "basicweakness", c ++ [x])] := by
              simp [alSet, hNB, hWB]
            simp only [h3, hget, hset]
            rw [ih a b (c ++ [x])]
            simp [subKey, h3, hNB, hWB, hBN, hBW, List.append_assoc]
          · have g1 : ¬(NONE = x.subtype_code.getD NONE) := fun h => h1 h.symm
            have g2 : ¬(str "weakness" = x.subtype_code.getD NONE) := fun h => h2 h.symm
            have g3 : ¬(str "basicweakness" = x.subtype_code.getD NONE) := fun h => h3 h.symm
            have hget : alGet [(NONE, a), (str "weakness", b), (str "basicweakness", c)]
                (x.subtype_code.getD NONE) = Option.none := by simp [alGet, g1, g2, g3]
            simp only [hget]
            rw [ih a b c]
            simp [subKey, h1, h2, h3]

lemma omitEmpty_three_buckets (a b c : List Card) (t : Str) :
    omitEmptyGroupings
      { data := [(NONE, a), (str "weakness", b), (str "basicweakness", c)],
        groupings := [NONE, str "weakness", str "basicweakness"], type := t } =
    (if a = [] then
      (if c = [] then
        { data := [(str "weakness", b)], groupings := [str "weakness"], type := t }
      else
        { data := [(str "weakness", b), (str "basicweakness", c)],
          groupings := [str "weakness", str "basicweakness"], type := t })
    else
      (if c = [] then
        { data := [(NONE, a), (str "weakness", b)],
          groupings := [NONE, str "weakness"], type := t }
      else
        { data := [(NONE, a), (str "weakness", b), (str "basicweakness", c)],
          groupings := [NONE, str "weakness", str "basicweakness"], type := t })
     : Grouping Str) := by
  have hNW : ¬(NONE = str "weakness") := by decide
  have hNB : ¬(NONE = str "basicweakness") := by decide
  have hWB : ¬(str "weakness" = str "basicweakness") := by decide
  by_cases ha : a = [] <;> by_cases hc : c = [] <;>
    simp [omitEmptyGroupings, omitLoop, alGet, alRemove, ha, hc, hNW, hNB, hWB,
      List.eraseIdx, List.length_eq_zero]

/-- The full closed form of `groupBySubtypeCode`: only the three fixed buckets
can appear and cards with other subtype codes are dropped; because of the
index-skipping in `omitEmptyGroupings`, the `weakness` bucket is never
examined and survives even when empty, while the empty `NONE` and
`basicweakness` buckets are dropped. -/
lemma groupBySubtypeCode_eq (cards : List Card) :
    groupBySubtypeCode cards =
      (let a := cards.filter (fun x => subKey x = NONE)
       let b := cards.filter (fun x => subKey x = str "weakness")
       let c := cards.filter (fun x => subKey x = str "basicweakness")
       let gN : GroupingResult := ⟨a, NONE, str "subtype", false⟩
       let gW : GroupingResult := ⟨b, str "weakness", str "subtype", false⟩
       let gB : GroupingResult := ⟨c, str "basicweakness", str "subtype", false⟩
       if a = [] then (if c = [] then [gW] else [gW, gB])
       else (if c = [] then [gN, gW] else [gN, gW, gB])) := by
  have hNW : ¬(NONE = str "weakness") := by decide
  have hNB : ¬(NONE = str "basicweakness") := by decide
  have hWB : ¬(str "weakness" = str "basicweakness") := by decide
  unfold groupBySubtypeCode
  rw [subtypeFold cards [] [] [] [NONE, str "weakness", str "basicweakness"] (str "subtype")]
  simp only [List.nil_append]
  rw [omitEmpty_three_buckets]
  by_cases ha : cards.filter (fun x => subKey x = NONE) = [] <;>
    by_cases hc : cards.filter (fun x => subKey x = str "basicweakness") = [] <;>
      simp [ha, hc, toGroupingResult, alGet, hNW, hNB, hWB]

/-- C6: subtype partitioning only ever produces (a subsequence of) the three
fixed buckets `NONE`, `weakness`, `basicweakness` in that fixed order; a card
whose subtype key is not one of the three appears in no output group; and on
the concrete scenario {no subtype, "weakness", "ultra-rare"} the result has
exactly the two leaves `NONE` and `weakness`, the ultra-rare card excluded. -/
theorem c6_subtype_fixed_buckets :
    (∀ cards : List Card,
      ((groupBySubtypeCode cards).map GroupingResult.key).Sublist
        [NONE, str "weakness", str "basicweakness"]) ∧
    (∀ (cards : List Card) (x : Card) (g : GroupingResult),
      g ∈ groupBySubtypeCode cards → x ∈ g.cards →
        x ∈ cards ∧ g.key = subKey x ∧
        subKey x ∈ [NONE, str "weakness", str "basicweakness"]) ∧
    groupBySubtypeCode
        [baseCard, { cardB with subtype_code := some (str "weakness") },
         { baseCard with code := str "c", subtype_code := some (str "ultra-rare") }] =
      [{ cards := [baseCard], key := NONE, type := str "subtype", aliased := false },
       { cards := [{ cardB with subtype_code := some (str "weakness") }],
         key := str "weakness", type := str "subtype", aliased := false }] := by
  refine ⟨?_, ?_, by decide⟩
  · intro cards
    rw [groupBySubtypeCode_eq]
    by_cases ha : cards.filter (fun x => subKey x = NONE) = [] <;>
      by_cases hc : cards.filter (fun x => subKey x = str "basicweakness") = [] <;>
        simp [ha, hc] <;> decide
  · intro cards x g hg hx
    rw [groupBySubtypeCode_eq] at hg
    by_cases ha : cards.filter (fun x => subKey x = NONE) = [] <;>
      by_cases hc : cards.filter (fun x => subKey x = str "basicweakness") = [] <;>
        simp only [ha, hc, if_pos, if_neg, List.mem_cons, List.mem_singleton,
          List.not_mem_nil, or_false, if_true, if_false] at hg <;>
      · rcases hg with hg | hg | hg <;>
          (try subst hg) <;>
          simp_all [List.mem_filter] <;>
          simp_all

/-- Witness for C6: the general parts evaluated at a concrete input (a card
with no subtype in a one-card list lands in the `NONE` group). -/
theorem c6_subtype_fixed_buckets_witness :
    ((groupBySubtypeCode [baseCard]).map GroupingResult.key).Sublist
      [NONE, str "weakness", str "basicweakness"] ∧
    (baseCard ∈ [baseCard] ∧
      (⟨[baseCard], NONE, str "subtype", false⟩ : GroupingResult).key = subKey baseCard ∧
      subKey baseCard ∈ [NONE, str "weakness", str "basicweakness"]) :=
  ⟨c6_subtype_fixed_buckets.1 [baseCard],
   c6_subtype_fixed_buckets.2.1 [baseCard] baseCard
     ⟨[baseCard], NONE, str "subtype", false⟩ (by decide) (by decide)⟩

/-- Counterexample to C7 as stated: the switch of `getGroupingKeyLabel` has a
literal `case "default":` branch that returns the segment, so the
unrecognized dimension-type string `"default"` does not yield the empty
string; likewise, recognized dimensions that feed their segment to the
translator (here: `subtype` with an unrecognized segment) return whatever the
translator returns, not `""`. -/
theorem c7_label_counterexample :
    (str "default" ∉ groupingTypeStrings ∧
      getGroupingKeyLabel i18nEcho fmt0 (str "default") (str "x") meta0 = str "x" ∧
      str "x" ≠ ([] : Str)) ∧
    (str "ultra-rare" ∉ [NONE, str "weakness", str "basicweakness"] ∧
      getGroupingKeyLabel i18nEcho fmt0 (str "subtype") (str "ultra-rare") meta0 =
        str "common.subtype.ultra-rare" ∧
      str "common.subtype.ultra-rare" ≠ ([] : Str)) := by
  decide

/-- C7 (amended): `getGroupingKeyLabel` is total and returns the empty string
for every type string outside its twelve handled case labels (the eleven
dimension strings and the literal `"default"`), for the `NONE` sentinel under
`subtype`, and for unrecognized segments under `base_upgrades`; the handled
label `"default"` echoes the segment.  (Other recognized dimensions delegate
unrecognized segments to the translator, the metadata or the slot formatter
instead of returning `""`.) -/
theorem c7_label_fallbacks (I : I18nModule) (F : FormattingModule) (metadata : Metadata)
    (type segment : Str) :
    (type ∉ groupingTypeStrings → type ≠ str "default" →
      getGroupingKeyLabel I F type segment metadata = []) ∧
    (segment = NONE → getGroupingKeyLabel I F (str "subtype") segment metadata = []) ∧
    (segment ≠ LEVEL_0 → segment ≠ UPGRADE →
      getGroupingKeyLabel I F (str "base_upgrades") segment metadata = []) ∧
    getGroupingKeyLabel I F (str "default") segment metadata = segment := by
  refine ⟨?_, ?_, ?_, ?_⟩
  · intro h hd
    have h1 : type ≠ str "none" := fun e => h (e ▸ (by decide))
    have h2 : type ≠ str "subtype" := fun e => h (e ▸ (by decide))
    have h3 : type ≠ str "type" := fun e => h (e ▸ (by decide))
    have h4 : type ≠ str "cycle" := fun e => h (e ▸ (by decide))
    have h5 : type ≠ str "encounter_set" := fun e => h (e ▸ (by decide))
    have h6 : type ≠ str "slot" := fun e => h (e ▸ (by decide))
    have h7 : type ≠ str "level" := fun e => h (e ▸ (by decide))
    have h8 : type ≠ str "cost" := fun e => h (e ▸ (by decide))
    have h9 : type ≠ str "faction" := fun e => h (e ▸ (by decide))
    have h10 : type ≠ str "base_upgrades" := fun e => h (e ▸ (by decide))
    have h11 : type ≠ str "pack" := fun e => h (e ▸ (by decide))
    simp [getGroupingKeyLabel, h1, h2, h3, h4, h5, h6, h7, h8, h9, h10, h11, hd]
  · intro hs
    subst hs
    unfold getGroupingKeyLabel
    rw [if_neg (by decide), if_pos rfl, if_pos rfl]
  · intro hL hU
    unfold getGroupingKeyLabel
    rw [if_neg (by decide), if_neg (by decide), if_neg (by decide), if_neg (by decide),
        if_neg (by decide), if_neg (by decide), if_neg (by decide), if_neg (by decide),
        if_neg (by decide), if_pos rfl, if_neg hL, if_neg hU]
  · unfold getGroupingKeyLabel
    rw [if_neg (by decide), if_neg (by decide), if_neg (by decide), if_neg (by decide),
        if_neg (by decide), if_neg (by decide), if_neg (by decide), if_neg (by decide),
        if_neg (by decide), if_neg (by decide), if_neg (by decide), if_pos rfl]

/-- Witness for C7 (amended), instantiated at concrete unrecognized inputs. -/
theorem c7_label_fallbacks_witness :
    getGroupingKeyLabel i18nEcho fmt0 (str "bogus") (str "x") meta0 = [] ∧
    getGroupingKeyLabel i18nEcho fmt0 (str "subtype") NONE meta0 = [] ∧
    getGroupingKeyLabel i18nEcho fmt0 (str "base_upgrades") (str "x") meta0 = [] ∧
    getGroupingKeyLabel i18nEcho fmt0 (str "default") (str "x") meta0 = str "x" :=
  ⟨(c7_label_fallbacks i18nEcho fmt0 meta0 (str "bogus") (str "x")).1
      (by decide) (by decide),
   (c7_label_fallbacks i18nEcho fmt0 meta0 (str "subtype") NONE).2.1 rfl,
   (c7_label_fallbacks i18nEcho fmt0 meta0 (str "base_upgrades") (str "x")).2.2.1
      (by decide) (by decide),
   (c7_label_fallbacks i18nEcho fmt0 meta0 (str "default") (str "x")).2.2.2⟩

/-! ### Association-list lemmas -/

section AListLemmas

variable {K V : Type} [DecidableEq K]

lemma alGet_eq_none_iff (l : List (K × V)) (k : K) :
    alGet l k = Option.none ↔ k ∉ l.map Prod.fst := by
  induction l with
  | nil => simp [alGet]
  | cons kv rest ih =>
      obtain ⟨k', v⟩ := kv
      by_cases h : k' = k
      · subst h
        simp [alGet]
      · have h' : ¬k = k' := fun e => h e.symm
        simp [alGet, h, h', ih]

lemma alGet_isSome_of_mem {l : List (K × V)} {k : K} (h : k ∈ l.map Prod.fst) :
    ∃ v, alGet l k = some v := by
  cases hg : alGet l k with
  | none => exact absurd ((alGet_eq_none_iff l k).mp hg) (by simp [h])
  | some v => exact ⟨v, rfl⟩

lemma alGet_alSet_ne (l : List (K × V)) (k k' : K) (v : V) (h : ¬k = k') :
    alGet (alSet l k v) k' = alGet l k' := by
  induction l with
  | nil => simp [alSet]
  | cons kv rest ih =>
      obtain ⟨a, w⟩ := kv
      by_cases ha : a = k
      · subst ha
        simp [alSet, alGet, h]
      · simp [alSet, alGet, ha, ih]

lemma alSet_map_fst (l : List (K × V)) (k : K) (v : V) :
    (alSet l k v).map Prod.fst = l.map Prod.fst := by
  induction l with
  | nil => simp [alSet]
  | cons kv rest ih =>
      obtain ⟨a, w⟩ := kv
      by_cases ha : a = k <;> simp [alSet, ha, ih]

lemma alSet_flatten_perm (l : List (K × List Card)) (k : K) (c : Card) (v : List Card)
    (h : alGet l k = some v) :
    ((alSet l k (v ++ [c])).map Prod.snd).flatten.Perm ((l.map Prod.snd).flatten ++ [c]) := by
  induction l with
  | nil => simp [alGet] at h
  | cons kv rest ih =>
      obtain ⟨a, w⟩ := kv
      by_cases ha : a = k
      · subst ha
        have hw : w = v := by simpa [alGet] using h
        subst hw
        simp only [alSet, if_pos rfl, List.map_cons, List.flatten_cons]
        have hp : (([w] ++ [[c]]).flatten ++ (rest.map Prod.snd).flatten).Perm
            ((([w] ++ [[c]]).flatten ++ (rest.map Prod.snd).flatten)) := List.Perm.refl _
        have hcomm : ([c] ++ (rest.map Prod.snd).flatten).Perm
            ((rest.map Prod.snd).flatten ++ [c]) := List.perm_append_comm
        have h2 := hcomm.append_left w
        simpa [List.append_assoc] using h2
      · simp only [alGet, if_neg ha] at h
        simp only [alSet, if_neg ha, List.map_cons, List.flatten_cons]
        have h2 := (ih h).append_left w
        simpa [List.append_assoc] using h2

lemma alRemove_map_fst (l : List (K × V)) (k : K) :
    (alRemove l k).map Prod.fst = (l.map Prod.fst).erase k := by
  induction l with
  | nil => simp [alRemove]
  | cons kv rest ih =>
      obtain ⟨a, w⟩ := kv
      by_cases ha : a = k
      · subst ha
        simp [alRemove, List.erase_cons_head]
      · simp [alRemove, ha, ih, List.erase_cons_tail, Ne.symm ha]

lemma alGet_alRemove_ne (l : List (K × V)) (k k' : K) (h : ¬k = k') :
    alGet (alRemove l k) k' = alGet l k' := by
  induction l with
  | nil => simp [alRemove]
  | cons kv rest ih =>
      obtain ⟨a, w⟩ := kv
      by_cases ha : a = k
      · subst ha
        simp [alRemove, alGet, h]
      · simp [alRemove, alGet, ha, ih]

lemma alRemove_flatten_of_empty (l : List (K × List Card)) (k : K)
    (h : alGet l k = some []) :
    ((alRemove l k).map Prod.snd).flatten = (l.map Prod.snd).flatten := by
  induction l with
  | nil => simp [alRemove]
  | cons kv rest ih =>
      obtain ⟨a, w⟩ := kv
      by_cases ha : a = k
      · subst ha
        simp [alGet] at h
        subst h
        simp [alRemove]
      · simp only [alGet, if_neg ha] at h
        simp [alRemove, ha, ih h]

end AListLemmas

/-! ### `addCard` and bucket-fold invariants -/

section FoldLemmas

variable {K : Type} [DecidableEq K]

lemma addCard_type (g : Grouping K) (k : K) (c : Card) : (addCard g k c).type = g.type := by
  unfold addCard
  cases hg : alGet g.data k <;> simp [hg]

lemma addCard_WF (g : Grouping K) (k : K) (c : Card) (h : gWF g) : gWF (addCard g k c) := by
  obtain ⟨hkeys, hnd⟩ := h
  unfold addCard
  cases hg : alGet g.data k with
  | none =>
      simp only [hg]
      refine ⟨by simp [hkeys], ?_⟩
      have hk : k ∉ g.groupings := by
        rw [← hkeys]
        exact (alGet_eq_none_iff g.data k).mp hg
      simp [List.nodup_append, hnd, hk]
  | some v =>
      simp only [hg]
      exact ⟨by simp [alSet_map_fst, hkeys], hnd⟩

lemma alGet_append_single_self (l : List (K × V)) (k : K) (v : V)
    (h : alGet l k = Option.none) : alGet (l ++ [(k, v)]) k = some v := by
  induction l with
  | nil => simp [alGet]
  | cons kv rest ih =>
      obtain ⟨a, w⟩ := kv
      by_cases ha : a = k
      · subst ha
        simp [alGet] at h
      · simp only [alGet, if_neg ha] at h
        simp only [List.cons_append, alGet, if_neg ha]
        exact ih h

lemma alGet_append_single_ne (l : List (K × V)) (k k' : K) (v : V) (h : ¬k = k') :
    alGet (l ++ [(k, v)]) k' = alGet l k' := by
  induction l with
  | nil => simp [alGet, h]
  | cons kv rest ih =>
      obtain ⟨a, w⟩ := kv
      by_cases ha' : a = k' <;> simp [alGet, ha', ih]

lemma alGet_alSet_self (l : List (K × V)) (k : K) (v v' : V)
    (h : alGet l k = some v) : alGet (alSet l k v') k = some v' := by
  induction l with
  | nil => simp [alGet] at h
  | cons kv rest ih =>
      obtain ⟨a, w⟩ := kv
      by_cases ha : a = k
      · subst ha
        simp [alSet, alGet]
      · simp only [alGet, if_neg ha] at h
        simp only [alSet, if_neg ha, alGet]
        exact ih h

lemma addCard_bucket_self (g : Grouping K) (k : K) (c : Card) :
    bucket (addCard g k c) k = bucket g k ++ [c] := by
  unfold addCard bucket
  cases hg : alGet g.data k with
  | none => simp [hg, alGet_append_single_self g.data k [c] hg]
  | some v => simp [hg, alGet_alSet_self g.data k v (v ++ [c]) hg]

lemma addCard_bucket_ne (g : Grouping K) (k k' : K) (c : Card) (h : ¬k = k') :
    bucket (addCard g k c) k' = bucket g k' := by
  unfold addCard bucket
  cases hg : alGet g.data k with
  | none => simp [hg, alGet_append_single_ne g.data k k' [c] h]
  | some v => simp [hg, alGet_alSet_ne _ _ _ _ h]

lemma addCard_flat_perm (g : Grouping K) (k : K) (c : Card) :
    (gflat (addCard g k c)).Perm (gflat g ++ [c]) := by
  unfold addCard gflat
  cases hg : alGet g.data k with
  | none => simp [hg]
  | some v =>
      simp only [hg]
      exact alSet_flatten_perm g.data k c v hg

lemma addCard_mem_groupings (g : Grouping K) (k : K) (c : Card) (h : gWF g) :
    k ∈ (addCard g k c).groupings := by
  unfold addCard
  cases hg : alGet g.data k with
  | none => simp [hg]
  | some v =>
      have hmem : k ∈ g.data.map Prod.fst := by
        by_contra hmem
        rw [(alGet_eq_none_iff g.data k).mpr hmem] at hg
        cases hg
      simpa [hg, h.1] using hmem

lemma addCard_groupings_mono (g : Grouping K) (k : K) (c : Card) :
    g.groupings ⊆ (addCard g k c).groupings := by
  unfold addCard
  cases hg : alGet g.data k with
  | none => simp [hg, List.subset_append_left]
  | some v => simp [hg]

lemma addCard_groupings_origin (g : Grouping K) (k k' : K) (c : Card)
    (h : k' ∈ (addCard g k c).groupings) : k' ∈ g.groupings ∨ k' = k := by
  unfold addCard at h
  cases hg : alGet g.data k with
  | none =>
      rw [hg] at h
      simpa using h
  | some v =>
      rw [hg] at h
      exact Or.inl h

lemma foldAdd_WF (keyOf : Card → K) (cards : List Card) (init : Grouping K) (h : gWF init) :
    gWF (cards.foldl (fun acc card => addCard acc (keyOf card) card) init) := by
  induction cards generalizing init with
  | nil => exact h
  | cons c cs ih => exact ih _ (addCard_WF _ _ _ h)

lemma foldAdd_type (keyOf : Card → K) (cards : List Card) (init : Grouping K) :
    (cards.foldl (fun acc card => addCard acc (keyOf card) card) init).type = init.type := by
  induction cards generalizing init with
  | nil => rfl
  | cons c cs ih => simp [List.foldl_cons, ih, addCard_type]

lemma foldAdd_flat_perm (keyOf : Card → K) (cards : List Card) (init : Grouping K) :
    (gflat (cards.foldl (fun acc card => addCard acc (keyOf card) card) init)).Perm
      (gflat init ++ cards) := by
  induction cards generalizing init with
  | nil => simp
  | cons c cs ih =>
      simp only [List.foldl_cons]
      refine (ih (addCard init (keyOf c) c)).trans ?_
      have h1 := (addCard_flat_perm init (keyOf c) c).append_right cs
      refine h1.trans ?_
      simp [List.append_assoc]

lemma foldAdd_bucket (keyOf : Card → K) (cards : List Card) (init : Grouping K) (k : K) :
    bucket (cards.foldl (fun acc card => addCard acc (keyOf card) card) init) k =
      bucket init k ++ cards.filter (fun c => keyOf c = k) := by
  induction cards generalizing init with
  | nil => simp
  | cons c cs ih =>
      simp only [List.foldl_cons, List.filter_cons]
      by_cases h : keyOf c = k
      · subst h
        rw [ih, addCard_bucket_self]
        simp [List.append_assoc]
      · rw [ih, addCard_bucket_ne _ _ _ _ h]
        simp [h]

lemma foldAdd_groupings_mono (keyOf : Card → K) (cards : List Card) :
    ∀ init : Grouping K,
      init.groupings ⊆
        (cards.foldl (fun acc card => addCard acc (keyOf card) card) init).groupings := by
  induction cards with
  | nil => exact fun init a ha => ha
  | cons c cs ih =>
      intro init a ha
      exact ih (addCard init (keyOf c) c) (addCard_groupings_mono init (keyOf c) c ha)

lemma foldAdd_mem_groupings (keyOf : Card → K) (cards : List Card) (init : Grouping K)
    (h : gWF init) : ∀ c ∈ cards,
      keyOf c ∈ (cards.foldl (fun acc card => addCard acc (keyOf card) card) init).groupings := by
  induction cards generalizing init with
  | nil => simp
  | cons c cs ih =>
      intro x hx
      simp only [List.foldl_cons]
      rcases List.mem_cons.mp hx with rfl | hx
      · exact foldAdd_groupings_mono keyOf cs (addCard init (keyOf x) x)
          (addCard_mem_groupings init (keyOf x) x h)
      · exact ih _ (addCard_WF _ _ _ h) x hx

lemma foldAdd_groupings_origin (keyOf : Card → K) (cards : List Card) (init : Grouping K) :
    ∀ k ∈ (cards.foldl (fun acc card => addCard acc (keyOf card) card) init).groupings,
      k ∈ init.groupings ∨ ∃ c ∈ cards, keyOf c = k := by
  induction cards generalizing init with
  | nil => exact fun k hk => Or.inl hk
  | cons c cs ih =>
      intro k hk
      simp only [List.foldl_cons] at hk
      rcases ih _ k hk with h | ⟨d, hd, hdk⟩
      · rcases addCard_groupings_origin init (keyOf c) k c h with h' | rfl
        · exact Or.inl h'
        · exact Or.inr ⟨c, List.mem_cons_self c cs, rfl⟩
      · exact Or.inr ⟨d, List.mem_cons_of_mem c hd, hdk⟩

end FoldLemmas

/-! ### `omitEmptyGroupings` preservation properties -/

section OmitLemmas

variable {K : Type} [DecidableEq K]

lemma omitLoop_props (fuel : Nat) :
    ∀ (g : Grouping K) (i : Nat), gWF g →
      gWF (omitLoop fuel g i) ∧
      (omitLoop fuel g i).groupings.Sublist g.groupings ∧
      gflat (omitLoop fuel g i) = gflat g ∧
      (omitLoop fuel g i).type = g.type ∧
      (∀ k, k ∈ (omitLoop fuel g i).groupings →
        alGet (omitLoop fuel g i).data k = alGet g.data k) ∧
      (∀ k, k ∈ g.groupings → bucket g k ≠ [] → k ∈ (omitLoop fuel g i).groupings) := by
  induction fuel with
  | zero =>
      intro g i hWF
      exact ⟨hWF, List.Sublist.refl _, rfl, rfl, fun k _ => rfl, fun k hk _ => hk⟩
  | succ fuel ih =>
      intro g i hWF
      rw [omitLoop]
      by_cases hlen : i < g.groupings.length
      · rw [dif_pos hlen]
        by_cases hempty : ((alGet g.data (g.groupings[i])).getD []).length = 0
        · rw [if_pos hempty]
          -- the removed bucket is empty
          have hkeymem : g.groupings[i] ∈ g.groupings := List.getElem_mem hlen
          obtain ⟨v, hv⟩ : ∃ v, alGet g.data (g.groupings[i]) = some v := by
            apply alGet_isSome_of_mem
            rw [hWF.1]
            exact hkeymem
          have hvnil : v = [] := by
            rw [hv] at hempty
            simpa [List.length_eq_zero] using hempty
          subst hvnil
          set g' : Grouping K :=
            { g with data := alRemove g.data (g.groupings[i]),
                     groupings := g.groupings.eraseIdx i } with hg'
          have herase : (g.groupings.erase (g.groupings[i])) = g.groupings.eraseIdx i :=
            hWF.2.erase_getElem i hlen
          have hWF' : gWF g' := by
            constructor
            · show (alRemove g.data (g.groupings[i])).map Prod.fst = g.groupings.eraseIdx i
              rw [alRemove_map_fst, hWF.1, herase]
            · exact hWF.2.sublist (List.eraseIdx_sublist g.groupings i)
          have hkeyout : g.groupings[i] ∉ g'.groupings := by
            show g.groupings[i] ∉ g.groupings.eraseIdx i
            rw [← herase]
            intro hmem
            exact ((hWF.2.mem_erase_iff).mp hmem).1 rfl
          obtain ⟨iWF, iSub, iFlat, iType, iGet, iSurv⟩ := ih g' (i + 1) hWF'
          refine ⟨iWF, ?_, ?_, iType, ?_, ?_⟩
          · exact iSub.trans ((List.eraseIdx_sublist g.groupings i))
          · rw [iFlat]
            show ((alRemove g.data (g.groupings[i])).map Prod.snd).flatten = gflat g
            exact alRemove_flatten_of_empty g.data (g.groupings[i]) hv
          · intro k hk
            have hkg' : k ∈ g'.groupings := iSub.subset hk
            have hne : ¬(g.groupings[i]) = k := fun e => hkeyout (e ▸ hkg')
            rw [iGet k hk]
            exact alGet_alRemove_ne g.data (g.groupings[i]) k hne
          · intro k hk hb
            have hne : ¬(g.groupings[i]) = k := by
              intro e
              apply hb
              rw [← e]
              unfold bucket
              rw [hv]
              rfl
            have hkg' : k ∈ g'.groupings := by
              show k ∈ g.groupings.eraseIdx i
              rw [← herase]
              exact (hWF.2.mem_erase_iff).mpr ⟨fun e => hne e.symm, hk⟩
            have hb' : bucket g' k ≠ [] := by
              show (alGet (alRemove g.data (g.groupings[i])) k).getD [] ≠ []
              rw [alGet_alRemove_ne g.data (g.groupings[i]) k hne]
              exact hb
            exact iSurv k hkg' hb'
        · rw [if_neg hempty]
          exact ih g (i + 2) hWF
      · rw [dif_neg hlen]
        exact ⟨hWF, List.Sublist.refl _, rfl, rfl, fun k _ => rfl, fun k hk _ => hk⟩

lemma omitEmpty_props (g : Grouping K) (hWF : gWF g) :
    gWF (omitEmptyGroupings g) ∧
    (omitEmptyGroupings g).groupings.Sublist g.groupings ∧
    gflat (omitEmptyGroupings g) = gflat g ∧
    (omitEmptyGroupings g).type = g.type ∧
    (∀ k, k ∈ (omitEmptyGroupings g).groupings →
      alGet (omitEmptyGroupings g).data k = alGet g.data k) ∧
    (∀ k, k ∈ g.groupings → bucket g k ≠ [] → k ∈ (omitEmptyGroupings g).groupings) :=
  omitLoop_props g.groupings.length g 0 hWF

end OmitLemmas

/-! ### From groupings to results: flattening the pipeline -/

section PipelineLemmas

variable {K : Type} [DecidableEq K]

lemma alist_rows (l : List (K × List Card)) (hnd : (l.map Prod.fst).Nodup) :
    (l.map Prod.fst).map (fun k => (alGet l k).getD []) = l.map Prod.snd := by
  induction l with
  | nil => simp
  | cons kv rest ih =>
      obtain ⟨k, v⟩ := kv
      simp only [List.map_cons, List.nodup_cons] at hnd
      have h2 : ∀ k' ∈ rest.map Prod.fst,
          (alGet ((k, v) :: rest) k').getD ([] : List Card) = (alGet rest k').getD [] := by
        intro k' hk'
        have hne : ¬k = k' := fun e => hnd.1 (e ▸ hk')
        simp [alGet, hne]
      simp only [List.map_cons]
      rw [List.map_congr_left h2, ih hnd.2]
      simp [alGet]

lemma gWF_rows (g : Grouping K) (h : gWF g) :
    g.groupings.map (fun k => bucket g k) = g.data.map Prod.snd := by
  have hnd : (g.data.map Prod.fst).Nodup := by rw [h.1]; exact h.2
  have := alist_rows g.data hnd
  rw [h.1] at this
  simpa [bucket] using this

lemma toGroupingResult_flatMap (ks : K → Str) (g : Grouping K) :
    (toGroupingResult ks g).flatMap GroupingResult.cards =
      (g.groupings.map (fun k => bucket g k)).flatten := by
  unfold toGroupingResult bucket
  induction g.groupings with
  | nil => simp
  | cons k rest ih => simp_all [List.flatMap_cons]

lemma pipeline_coverage (keyOf : Card → K) (cards : List Card) (t : Str)
    (le : K → K → Bool) (ks : K → Str) :
    ((toGroupingResult ks
        { omitEmptyGroupings
            (cards.foldl (fun acc card => addCard acc (keyOf card) card)
              { data := [], groupings := [], type := t }) with
          groupings :=
            jsSort le (omitEmptyGroupings
              (cards.foldl (fun acc card => addCard acc (keyOf card) card)
                { data := [], groupings := [], type := t })).groupings }).flatMap
      GroupingResult.cards).Perm cards := by
  set init : Grouping K := { data := [], groupings := [], type := t } with hinit
  have hWFinit : gWF init := ⟨rfl, List.nodup_nil⟩
  set folded := cards.foldl (fun acc card => addCard acc (keyOf card) card) init with hfolded
  have hWFfold : gWF folded := foldAdd_WF keyOf cards init hWFinit
  obtain ⟨oWF, oSub, oFlat, oType, oGet, oSurv⟩ := omitEmpty_props folded hWFfold
  set omitted := omitEmptyGroupings folded with homitted
  rw [toGroupingResult_flatMap]
  have hbucket : ∀ k, bucket { omitted with groupings := jsSort le omitted.groupings } k =
      bucket omitted k := fun k => rfl
  have hmapeq : (jsSort le omitted.groupings).map
        (fun k => bucket { omitted with groupings := jsSort le omitted.groupings } k) =
      (jsSort le omitted.groupings).map (fun k => bucket omitted k) := by
    exact List.map_congr_left fun k _ => hbucket k
  show ((jsSort le omitted.groupings).map
      (fun k => bucket { omitted with groupings := jsSort le omitted.groupings } k)).flatten.Perm
    cards
  rw [hmapeq]
  have hperm : ((jsSort le omitted.groupings).map (fun k => bucket omitted k)).Perm
      (omitted.groupings.map (fun k => bucket omitted k)) :=
    (jsSort_perm le omitted.groupings).map _
  refine (hperm.flatten).trans ?_
  rw [gWF_rows omitted oWF]
  show (gflat omitted).Perm cards
  rw [oFlat]
  have := foldAdd_flat_perm keyOf cards init
  simpa [gflat, hinit] using this

end PipelineLemmas

/-! ### Coverage of each partitioning dimension -/

section Coverage

variable {K : Type} [DecidableEq K]

lemma foldlM_addCard_eq (f : Card → Option K) (dflt : K) (cards : List Card)
    (init acc : Grouping K)
    (h : cards.foldlM (fun acc card => (f card).map (fun key => addCard acc key card)) init =
      some acc) :
    acc = cards.foldl (fun acc card => addCard acc ((f card).getD dflt) card) init ∧
    ∀ c ∈ cards, (f c).isSome := by
  induction cards generalizing init with
  | nil =>
      simp only [List.foldlM_nil] at h
      cases h
      exact ⟨rfl, by simp⟩
  | cons c cs ih =>
      simp only [List.foldlM_cons] at h
      cases hc : f c with
      | none => rw [hc] at h; simp at h
      | some k =>
          rw [hc] at h
          simp only [Option.map_some', Option.bind_eq_bind, Option.some_bind] at h
          obtain ⟨heq, hall⟩ := ih (addCard init k c) h
          refine ⟨?_, ?_⟩
          · rw [heq]
            simp [hc]
          · intro x hx
            rcases List.mem_cons.mp hx with rfl | hx
            · simp [hc]
            · exact hall x hx

lemma groupByTypeCode_coverage (S : SortingModule) (cards : List Card) :
    ((groupByTypeCode S cards).flatMap GroupingResult.cards).Perm cards := by
  unfold groupByTypeCode
  exact pipeline_coverage (fun card => card.type_code) cards (str "type")
    (jsLe S.sortTypesByOrder) id

lemma groupBySlots_coverage (S : SortingModule) (cards : List Card) (collator : Collator) :
    ((groupBySlots S cards collator).flatMap GroupingResult.cards).Perm cards := by
  unfold groupBySlots
  exact pipeline_coverage
    (fun card => if card.permanent then str "permanent" else card.real_slot.getD NONE)
    cards (str "slot") (jsLe (S.sortBySlots collator)) id

lemma groupByLevel_coverage (S : SortingModule) (cards : List Card) :
    ((groupByLevel S cards).flatMap GroupingResult.cards).Perm cards := by
  unfold groupByLevel
  exact pipeline_coverage
    (fun card => match card.xp with
      | some xp => JKey.num xp
      | Option.none => JKey.str NONE)
    cards (str "level")
    (jsLe (fun a b =>
      if a = JKey.str NONE then -1
      else if b = JKey.str NONE then 1
      else S.sortNumerical a.numD b.numD))
    JKey.toString

lemma groupByFaction_coverage (S : SortingModule) (cards : List Card) :
    ((groupByFaction S cards).flatMap GroupingResult.cards).Perm cards := by
  unfold groupByFaction
  exact pipeline_coverage
    (fun card => if strTruthy card.faction2_code then str "multiclass" else card.faction_code)
    cards (str "faction") (jsLe S.sortByFactionOrder) id

lemma groupByEncounterSet_coverage (S : SortingModule) (cards : List Card)
    (metadata : Metadata) (collator : Collator) :
    ((groupByEncounterSet S cards metadata collator).flatMap GroupingResult.cards).Perm
      cards := by
  unfold groupByEncounterSet
  exact pipeline_coverage (fun card => card.encounter_code.getD NONE) cards
    (str "encounter_set") (jsLe (S.sortByEncounterSet metadata collator)) id

lemma groupByCost_coverage (S : SortingModule) (cards : List Card) :
    ((groupByCost S cards).flatMap GroupingResult.cards).Perm cards := by
  unfold groupByCost
  exact pipeline_coverage
    (fun card => match card.cost with
      | some cost => JKey.num cost
      | Option.none => JKey.str NONE)
    cards (str "cost")
    (jsLe (fun a b =>
      if a = JKey.str NONE then -1
      else if b = JKey.str NONE then 1
      else S.sortNumerical a.numD b.numD))
    JKey.toString

lemma groupByLevel0VsUpgrade_coverage (cards : List Card) :
    ((groupByLevel0VsUpgrade cards).flatMap GroupingResult.cards).Perm cards := by
  rw [groupByLevel0VsUpgrade_eq]
  by_cases h : cards.filter xpFalsy = []
  · have hp := List.filter_append_perm xpFalsy cards
    rw [h] at hp
    simpa [h] using hp
  · have hp := List.filter_append_perm xpFalsy cards
    simpa [h] using hp

lemma groupByCycle_coverage (cards : List Card) (metadata : Metadata)
    (gs : List GroupingResult) (h : groupByCycle cards metadata = some gs) :
    (gs.flatMap GroupingResult.cards).Perm cards := by
  unfold groupByCycle at h
  cases hf : cards.foldlM
      (fun acc card => (cycleKeyOf metadata card).map (fun key => addCard acc key card))
      { data := [], groupings := [], type := str "cycle" } with
  | none => rw [hf] at h; simp at h
  | some res =>
      rw [hf] at h
      simp only [Option.bind_eq_bind, Option.some_bind] at h
      split at h
      · obtain ⟨heq, _⟩ := foldlM_addCard_eq (cycleKeyOf metadata) [] cards _ res hf
        subst heq
        cases h
        exact pipeline_coverage (fun card => (cycleKeyOf metadata card).getD []) cards
          (str "cycle") (jsLe fun a b => cyclePosD metadata a - cyclePosD metadata b) id
      · cases h

lemma groupByPack_coverage (cards : List Card) (metadata : Metadata)
    (gs : List GroupingResult) (h : groupByPack cards metadata = some gs) :
    (gs.flatMap GroupingResult.cards).Perm cards := by
  unfold groupByPack at h
  cases hf : cards.foldlM
      (fun acc card => (packKeyOf metadata card).map (fun key => addCard acc key card))
      { data := [], groupings := [], type := str "pack" } with
  | none => rw [hf] at h; simp at h
  | some res =>
      rw [hf] at h
      simp only [Option.bind_eq_bind, Option.some_bind] at h
      split at h
      · obtain ⟨heq, _⟩ := foldlM_addCard_eq (packKeyOf metadata) [] cards _ res hf
        subst heq
        cases h
        exact pipeline_coverage (fun card => (packKeyOf metadata card).getD []) cards
          (str "pack")
          (jsLe fun a b =>
            if (packRankD metadata a).1 ≠ (packRankD metadata b).1 then
              (packRankD metadata a).1 - (packRankD metadata b).1
            else (packRankD metadata a).2 - (packRankD metadata b).2)
          id
      · cases h

end Coverage

/-- C1: for every dimension other than `subtype`, whenever `applyGrouping`
returns a partition (it returns `none` exactly when a metadata lookup would
throw in JS), the concatenation of the returned groups' card lists is a
permutation of the input list: no card is lost and none is duplicated, and
each input occurrence lies in exactly one group. -/
theorem c1_partition_coverage (S : SortingModule) (cards : List Card)
    (grouping : GroupingType) (metadata : Metadata) (collator : Collator)
    (gs : List GroupingResult) (hne : grouping ≠ GroupingType.subtype)
    (h : applyGrouping S cards grouping metadata collator = some gs) :
    (gs.flatMap GroupingResult.cards).Perm cards := by
  cases grouping with
  | none =>
      cases h
      simp
  | subtype => exact absurd rfl hne
  | type => cases h; exact groupByTypeCode_coverage S cards
  | slot => cases h; exact groupBySlots_coverage S cards collator
  | level => cases h; exact groupByLevel_coverage S cards
  | base_upgrades => cases h; exact groupByLevel0VsUpgrade_coverage cards
  | faction => cases h; exact groupByFaction_coverage S cards
  | encounter_set => cases h; exact groupByEncounterSet_coverage S cards metadata collator
  | cost => cases h; exact groupByCost_coverage S cards
  | cycle => exact groupByCycle_coverage cards metadata gs h
  | pack => exact groupByPack_coverage cards metadata gs h

/-- Witness for C1 at a concrete input (two asset cards under `type`). -/
theorem c1_partition_coverage_witness :
    applyGrouping S0 [baseCard, cardB] GroupingType.type meta0 coll0 =
      some [{ cards := [baseCard, cardB], key := str "asset", type := str "type",
              aliased := false }] ∧
    (([{ cards := [baseCard, cardB], key := str "asset", type := str "type",
         aliased := false }] : List GroupingResult).flatMap GroupingResult.cards).Perm
      [baseCard, cardB] :=
  ⟨by decide,
   c1_partition_coverage S0 [baseCard, cardB] GroupingType.type meta0 coll0 _
     (by decide) (by decide)⟩

/-! ### Membership: every card reaches the bucket of its derived key -/

section Membership

variable {K : Type} [DecidableEq K]

lemma pipeline_mem (keyOf : Card → K) (cards : List Card) (t : Str)
    (le : K → K → Bool) (ks : K → Str) (c : Card) (hc : c ∈ cards) :
    ∃ g ∈ toGroupingResult ks
        { omitEmptyGroupings
            (cards.foldl (fun acc card => addCard acc (keyOf card) card)
              { data := [], groupings := [], type := t }) with
          groupings :=
            jsSort le (omitEmptyGroupings
              (cards.foldl (fun acc card => addCard acc (keyOf card) card)
                { data := [], groupings := [], type := t })).groupings },
      g.key = ks (keyOf c) ∧ c ∈ g.cards := by
  set init : Grouping K := { data := [], groupings := [], type := t } with hinit
  have hWFinit : gWF init := ⟨rfl, List.nodup_nil⟩
  set folded := cards.foldl (fun acc card => addCard acc (keyOf card) card) init with hfolded
  have hWFfold : gWF folded := foldAdd_WF keyOf cards init hWFinit
  obtain ⟨oWF, oSub, oFlat, oType, oGet, oSurv⟩ := omitEmpty_props folded hWFfold
  set omitted := omitEmptyGroupings folded with homitted
  have hkmem : keyOf c ∈ folded.groupings := foldAdd_mem_groupings keyOf cards init hWFinit c hc
  have hbucket : bucket folded (keyOf c) = cards.filter (fun x => keyOf x = keyOf c) := by
    rw [hfolded, foldAdd_bucket]
    simp [hinit, bucket, alGet]
  have hcb : c ∈ bucket folded (keyOf c) := by
    rw [hbucket]
    simp [hc]
  have hbne : bucket folded (keyOf c) ≠ [] := by
    intro he
    rw [he] at hcb
    cases hcb
  have hkomit : keyOf c ∈ omitted.groupings := oSurv (keyOf c) hkmem hbne
  have hbomit : bucket omitted (keyOf c) = bucket folded (keyOf c) := by
    unfold bucket
    rw [oGet (keyOf c) hkomit]
  have hksort : keyOf c ∈ jsSort le omitted.groupings :=
    ((jsSort_perm le omitted.groupings).mem_iff).mpr hkomit
  refine ⟨{ cards := bucket omitted (keyOf c), key := ks (keyOf c),
            type := omitted.type, aliased := false }, ?_, rfl, ?_⟩
  · unfold toGroupingResult
    simp only [List.mem_map]
    exact ⟨keyOf c, hksort, rfl⟩
  · rw [hbomit]
    exact hcb

end Membership

/-- The bucket key of `groupByPack` in closed form, given that the card's
literal pack resolves. -/
lemma packKeyOf_eq (metadata : Metadata) (card : Card) (pack : Pack)
    (hp : metadata.packs card.pack_code = some pack) :
    packKeyOf metadata card = some
      (match metadata.packs
          (pack.cycle_code ++ (if strTruthy card.encounter_code then ['c'] else ['p'])) with
       | some rp => if rp.reprint then rp.code else pack.code
       | Option.none => pack.code) := by
  unfold packKeyOf
  rw [hp]
  by_cases htr : strTruthy card.encounter_code = true
  · simp only [htr, if_true, Option.some_bind, Option.bind_eq_bind]
    cases hrp : metadata.packs (pack.cycle_code ++ ['c']) with
    | none => simp [hrp]
    | some rp => by_cases hb : rp.reprint = true <;> simp [hrp, hb]
  · simp only [Bool.not_eq_true] at htr
    have hne : ¬(str "player" = str "encounter") := by decide
    simp only [htr, Bool.false_eq_true, if_false, Option.some_bind, Option.bind_eq_bind,
      if_neg hne]
    cases hrp : metadata.packs (pack.cycle_code ++ ['p']) with
    | none => simp [hrp]
    | some rp => by_cases hb : rp.reprint = true <;> simp [hrp, hb]

/-- C5: the pack dimension computes the synthetic reprint code
`cycle_code ++ ("c" | "p")` (by whether the card has an encounter code) and
buckets the card under the pack with that code iff such a pack exists and is
marked reprint, otherwise under the card's literal pack code; and every card
indeed appears in the group carrying its computed key.  The metadata
hypothesis states that `packs` is an index: the pack stored at a code has that
code. -/
theorem c5_pack_reprint_redirect (metadata : Metadata)
    (hwf : ∀ k p, metadata.packs k = some p → p.code = k) :
    (∀ (card : Card) (pack : Pack), metadata.packs card.pack_code = some pack →
      ((∃ rp, metadata.packs
            (pack.cycle_code ++ (if strTruthy card.encounter_code then ['c'] else ['p'])) =
            some rp ∧ rp.reprint = true) →
        packKeyOf metadata card = some
          (pack.cycle_code ++ (if strTruthy card.encounter_code then ['c'] else ['p']))) ∧
      ((¬∃ rp, metadata.packs
            (pack.cycle_code ++ (if strTruthy card.encounter_code then ['c'] else ['p'])) =
            some rp ∧ rp.reprint = true) →
        packKeyOf metadata card = some card.pack_code)) ∧
    (∀ (cards : List Card) (gs : List GroupingResult),
      groupByPack cards metadata = some gs → ∀ c ∈ cards,
        ∃ g ∈ gs, some g.key = packKeyOf metadata c ∧ c ∈ g.cards) := by
  constructor
  · intro card pack hp
    constructor
    · rintro ⟨rp, hrp, hreprint⟩
      rw [packKeyOf_eq metadata card pack hp, hrp]
      simp [hreprint, hwf _ _ hrp]
    · intro hnone
      rw [packKeyOf_eq metadata card pack hp]
      cases hrp : metadata.packs
          (pack.cycle_code ++ (if strTruthy card.encounter_code then ['c'] else ['p'])) with
      | none => simp [hwf _ _ hp]
      | some rp =>
          have hrep : rp.reprint = false := by
            by_contra hb
            exact hnone ⟨rp, hrp, by simpa using hb⟩
          simp [hrp, hrep, hwf _ _ hp]
  · intro cards gs h c hc
    unfold groupByPack at h
    cases hf : cards.foldlM
        (fun acc card => (packKeyOf metadata card).map (fun key => addCard acc key card))
        { data := [], groupings := [], type := str "pack" } with
    | none => rw [hf] at h; simp at h
    | some res =>
        rw [hf] at h
        simp only [Option.bind_eq_bind, Option.some_bind] at h
        split at h
        · obtain ⟨heq, hall⟩ := foldlM_addCard_eq (packKeyOf metadata) [] cards _ res hf
          subst heq
          cases h
          obtain ⟨g, hg, hkey, hcg⟩ := pipeline_mem
            (fun card => (packKeyOf metadata card).getD []) cards (str "pack")
            (jsLe fun a b =>
              if (packRankD metadata a).1 ≠ (packRankD metadata b).1 then
                (packRankD metadata a).1 - (packRankD metadata b).1
              else (packRankD metadata a).2 - (packRankD metadata b).2)
            id c hc
          refine ⟨g, hg, ?_, hcg⟩
          obtain ⟨v, hv⟩ := Option.isSome_iff_exists.mp (hall c hc)
          rw [hkey, hv]
          simp
        · cases h

/-- Witness for C5: scenario C.  The encounter card in pack `"abc"` groups
under the reprint pack `"abcc"`. -/
theorem c5_pack_reprint_redirect_witness :
    packKeyOf metaC cardC = some (str "abcc") ∧
    (∃ g ∈ ([{ cards := [cardC], key := str "abcc", type := str "pack",
               aliased := false }] : List GroupingResult),
      some g.key = packKeyOf metaC cardC ∧ cardC ∈ g.cards) := by
  constructor
  · have h := ((c5_pack_reprint_redirect metaC (by
      intro k p hp
      unfold metaC at hp
      by_cases h1 : k = str "abc"
      · subst h1; simp at hp; rw [← hp]
      · by_cases h2 : k = str "abcc"
        · subst h2; simp [h1] at hp; rw [← hp]
        · simp [h1, h2] at hp)).1 cardC
        { code := str "abc", cycle_code := str "abc", position := 1, reprint := false }
        (by decide)).1
      (⟨{ code := str "abcc", cycle_code := str "abc", position := 2, reprint := true },
        by decide, rfl⟩)
    rw [h]
    decide
  · exact ((c5_pack_reprint_redirect metaC (by
      intro k p hp
      unfold metaC at hp
      by_cases h1 : k = str "abc"
      · subst h1; simp at hp; rw [← hp]
      · by_cases h2 : k = str "abcc"
        · subst h2; simp [h1] at hp; rw [← hp]
        · simp [h1, h2] at hp)).2 [cardC]
      ([{ cards := [cardC], key := str "abcc", type := str "pack", aliased := false }] :
        List GroupingResult) (by decide) cardC (by decide))

lemma expandPass_nil (S : SortingModule) (grouping : GroupingType) (metadata : Metadata)
    (collator : Collator) (h0 : Hier) :
    expandPass S grouping metadata collator [] h0 = some ([], h0) := rfl

lemma expandPass_cons_none (S : SortingModule) (grouping : GroupingType)
    (metadata : Metadata) (collator : Collator) (g : GroupingResult)
    (rest : List GroupingResult) (h0 : Hier)
    (hexp : expandGroup S grouping metadata collator g = Option.none) :
    expandPass S grouping metadata collator (g :: rest) h0 = Option.none := by
  unfold expandPass
  rw [hexp]

lemma expandPass_cons_some (S : SortingModule) (grouping : GroupingType)
    (metadata : Metadata) (collator : Collator) (g : GroupingResult)
    (rest : List GroupingResult) (h0 : Hier) (expanded : List GroupingResult)
    (hexp : expandGroup S grouping metadata collator g = some expanded) :
    expandPass S grouping metadata collator (g :: rest) h0 =
      match expandPass S grouping metadata collator rest
          (expanded.foldl
            (fun h g' => hinsert h g'.key
              { key := g'.key, type := g'.type, count := g'.cards.length,
                parent := some g.key })
            (hinsert h0 g.key
              { key := g.key, type := g.type, count := g.cards.length,
                parent := splitParent g.key })) with
      | Option.none => Option.none
      | some (rest', h') => some (expanded ++ rest', h') := by
  conv_lhs => rw [expandPass]
  rw [hexp]

lemma expandPass_flatMap (S : SortingModule) (grouping : GroupingType)
    (metadata : Metadata) (collator : Collator) (data : List GroupingResult) (h0 : Hier)
    (d' : List GroupingResult) (h' : Hier)
    (h : expandPass S grouping metadata collator data h0 = some (d', h')) :
    (∀ g ∈ data, (expandGroup S grouping metadata collator g).isSome) ∧
    d' = data.flatMap (fun g => (expandGroup S grouping metadata collator g).getD []) := by
  induction data generalizing h0 d' h' with
  | nil =>
      rw [expandPass_nil] at h
      cases h
      simp
  | cons g rest ih =>
      cases hexp : expandGroup S grouping metadata collator g with
      | none => rw [expandPass_cons_none S grouping metadata collator g rest h0 hexp] at h; cases h
      | some expanded =>
          rw [expandPass_cons_some S grouping metadata collator g rest h0 expanded hexp] at h
          cases hrest : expandPass S grouping metadata collator rest
              (expanded.foldl
                (fun hh gg => hinsert hh gg.key
                  { key := gg.key, type := gg.type, count := gg.cards.length,
                    parent := some g.key })
                (hinsert h0 g.key
                  { key := g.key, type := g.type, count := g.cards.length,
                    parent := splitParent g.key })) with
          | none => rw [hrest] at h; cases h
          | some p =>
              obtain ⟨rest', hh⟩ := p
              rw [hrest] at h
              cases h
              obtain ⟨iall, ieq⟩ := ih _ _ _ hrest
              refine ⟨?_, ?_⟩
              · intro x hx
                rcases List.mem_cons.mp hx with rfl | hx
                · simp [hexp]
                · exact iall x hx
              · simp [List.flatMap_cons, hexp, ieq]

/-- C8: one expansion pass replaces every group, in list order, by its
expansion spliced in contiguously at the group's position: the resulting list
is exactly the concatenation of the per-group expansions, so groups whose
expansion is empty disappear while all other relative order is preserved, and
iterating passes yields the leaves in pre-order of the implied tree. -/
theorem c8_expansion_preserves_order (S : SortingModule) (grouping : GroupingType)
    (metadata : Metadata) (collator : Collator) (data : List GroupingResult) (h0 : Hier)
    (d' : List GroupingResult) (h' : Hier)
    (h : expandPass S grouping metadata collator data h0 = some (d', h')) :
    (∀ g ∈ data, (expandGroup S grouping metadata collator g).isSome) ∧
    d' = data.flatMap (fun g => (expandGroup S grouping metadata collator g).getD []) :=
  expandPass_flatMap S grouping metadata collator data h0 d' h' h

/-- Witness for C8: a one-group list expanded along `type`. -/
theorem c8_expansion_preserves_order_witness :
    expandPass S0 GroupingType.type meta0 coll0
        [{ cards := [baseCard], key := str "all", type := str "none", aliased := true }]
        [] =
      some ([{ cards := [baseCard], key := str "all" ++ barChar :: str "asset",
               type := str "none" ++ barChar :: str "type", aliased := false }],
        [(str "all",
          { key := str "all", type := str "none", count := 1, parent := Option.none }),
         (str "all" ++ barChar :: str "asset",
          { key := str "all" ++ barChar :: str "asset",
            type := str "none" ++ barChar :: str "type", count := 1,
            parent := some (str "all") })]) ∧
    ([{ cards := [baseCard], key := str "all" ++ barChar :: str "asset",
        type := str "none" ++ barChar :: str "type", aliased := false }] :
       List GroupingResult) =
      ([{ cards := [baseCard], key := str "all", type := str "none", aliased := true }] :
        List GroupingResult).flatMap
        (fun g => (expandGroup S0 GroupingType.type meta0 coll0 g).getD []) := by
  constructor
  · decide
  · exact (c8_expansion_preserves_order S0 GroupingType.type meta0 coll0
      [{ cards := [baseCard], key := str "all", type := str "none", aliased := true }]
      []
      [{ cards := [baseCard], key := str "all" ++ barChar :: str "asset",
         type := str "none" ++ barChar :: str "type", aliased := false }]
      [(str "all",
        { key := str "all", type := str "none", count := 1, parent := Option.none }),
       (str "all" ++ barChar :: str "asset",
        { key := str "all" ++ barChar :: str "asset",
          type := str "none" ++ barChar :: str "type", count := 1,
          parent := some (str "all") })]
      (by decide)).2

/-! ### The aliasing ghost flag: which result arrays are the caller's array -/

section Aliasing

lemma mem_toGroupingResult_aliased {K : Type} [DecidableEq K] (ks : K → Str)
    (g : Grouping K) (r : GroupingResult) (hr : r ∈ toGroupingResult ks g) :
    r.aliased = false := by
  unfold toGroupingResult at hr
  simp only [List.mem_map] at hr
  obtain ⟨k, _, rfl⟩ := hr
  rfl

lemma applyGrouping_aliased_false (S : SortingModule) (cards : List Card)
    (grouping : GroupingType) (metadata : Metadata) (collator : Collator)
    (gs : List GroupingResult) (hne : grouping ≠ GroupingType.none)
    (h : applyGrouping S cards grouping metadata collator = some gs) :
    ∀ r ∈ gs, r.aliased = false := by
  cases grouping with
  | none => exact absurd rfl hne
  | subtype =>
      cases h
      intro r hr
      unfold groupBySubtypeCode at hr
      exact mem_toGroupingResult_aliased _ _ r hr
  | type =>
      cases h
      intro r hr
      unfold groupByTypeCode at hr
      exact mem_toGroupingResult_aliased _ _ r hr
  | slot =>
      cases h
      intro r hr
      unfold groupBySlots at hr
      exact mem_toGroupingResult_aliased _ _ r hr
  | level =>
      cases h
      intro r hr
      unfold groupByLevel at hr
      exact mem_toGroupingResult_aliased _ _ r hr
  | base_upgrades =>
      cases h
      intro r hr
      unfold groupByLevel0VsUpgrade at hr
      exact mem_toGroupingResult_aliased _ _ r hr
  | faction =>
      cases h
      intro r hr
      unfold groupByFaction at hr
      exact mem_toGroupingResult_aliased _ _ r hr
  | encounter_set =>
      cases h
      intro r hr
      unfold groupByEncounterSet at hr
      exact mem_toGroupingResult_aliased _ _ r hr
  | cost =>
      cases h
      intro r hr
      unfold groupByCost at hr
      exact mem_toGroupingResult_aliased _ _ r hr
  | cycle =>
      unfold applyGrouping at h
      unfold groupByCycle at h
      cases hf : cards.foldlM
          (fun acc card => (cycleKeyOf metadata card).map (fun key => addCard acc key card))
          { data := [], groupings := [], type := str "cycle" } with
      | none => rw [hf] at h; simp at h
      | some res =>
          rw [hf] at h
          simp only [Option.bind_eq_bind, Option.some_bind] at h
          split at h
          · cases h
            intro r hr
            exact mem_toGroupingResult_aliased _ _ r hr
          · cases h
  | pack =>
      unfold applyGrouping at h
      unfold groupByPack at h
      cases hf : cards.foldlM
          (fun acc card => (packKeyOf metadata card).map (fun key => addCard acc key card))
          { data := [], groupings := [], type := str "pack" } with
      | none => rw [hf] at h; simp at h
      | some res =>
          rw [hf] at h
          simp only [Option.bind_eq_bind, Option.some_bind] at h
          split at h
          · cases h
            intro r hr
            exact mem_toGroupingResult_aliased _ _ r hr
          · cases h

lemma expandGroup_mem (S : SortingModule) (grouping : GroupingType) (metadata : Metadata)
    (collator : Collator) (group : GroupingResult) (exp : List GroupingResult)
    (r : GroupingResult) (hexp : expandGroup S grouping metadata collator group = some exp)
    (hr : r ∈ exp) :
    ∃ gs0, applyGrouping S group.cards grouping metadata collator = some gs0 ∧
      ∃ g0 ∈ gs0,
        r = { cards := g0.cards, key := group.key ++ barChar :: g0.key,
              type := group.type ++ barChar :: g0.type,
              aliased := g0.aliased && group.aliased } := by
  unfold expandGroup at hexp
  cases ha : applyGrouping S group.cards grouping metadata collator with
  | none => rw [ha] at hexp; cases hexp
  | some gs0 =>
      rw [ha] at hexp
      simp only [Option.map_some'] at hexp
      cases hexp
      simp only [List.mem_map] at hr
      obtain ⟨g0, hg0, rfl⟩ := hr
      exact ⟨gs0, rfl, g0, hg0, rfl⟩

lemma expandPass_flags_of_all_false (S : SortingModule) (grouping : GroupingType)
    (metadata : Metadata) (collator : Collator) (data : List GroupingResult) (h0 : Hier)
    (d' : List GroupingResult) (h' : Hier)
    (h : expandPass S grouping metadata collator data h0 = some (d', h'))
    (hflags : ∀ g ∈ data, g.aliased = false) : ∀ g ∈ d', g.aliased = false := by
  obtain ⟨hall, heq⟩ := expandPass_flatMap S grouping metadata collator data h0 d' h' h
  subst heq
  intro r hr
  simp only [List.mem_flatMap] at hr
  obtain ⟨g, hg, hrg⟩ := hr
  obtain ⟨exp, hexp⟩ := Option.isSome_iff_exists.mp (hall g hg)
  rw [hexp] at hrg
  simp only [Option.getD_some] at hrg
  obtain ⟨gs0, _, g0, _, rfl⟩ := expandGroup_mem S grouping metadata collator g exp _ hexp hrg
  simp [hflags g hg]

lemma expandPass_flags_of_not_none (S : SortingModule) (grouping : GroupingType)
    (metadata : Metadata) (collator : Collator) (data : List GroupingResult) (h0 : Hier)
    (d' : List GroupingResult) (h' : Hier)
    (h : expandPass S grouping metadata collator data h0 = some (d', h'))
    (hne : grouping ≠ GroupingType.none) : ∀ g ∈ d', g.aliased = false := by
  obtain ⟨hall, heq⟩ := expandPass_flatMap S grouping metadata collator data h0 d' h' h
  subst heq
  intro r hr
  simp only [List.mem_flatMap] at hr
  obtain ⟨g, hg, hrg⟩ := hr
  obtain ⟨exp, hexp⟩ := Option.isSome_iff_exists.mp (hall g hg)
  rw [hexp] at hrg
  simp only [Option.getD_some] at hrg
  obtain ⟨gs0, ha, g0, hg0, rfl⟩ := expandGroup_mem S grouping metadata collator g exp _ hexp hrg
  simp [applyGrouping_aliased_false S g.cards grouping metadata collator gs0 hne ha g0 hg0]

lemma foldPasses_flags (S : SortingModule) (metadata : Metadata) (collator : Collator) :
    ∀ (dims : List GroupingType) (data : List GroupingResult) (h0 : Hier)
      (out : List GroupingResult × Hier),
      dims.foldlM (fun acc grouping => expandPass S grouping metadata collator acc.1 acc.2)
          (data, h0) = some out →
      ((∀ g ∈ data, g.aliased = false) ∨ (∃ d ∈ dims, d ≠ GroupingType.none)) →
      ∀ g ∈ out.1, g.aliased = false := by
  intro dims
  induction dims with
  | nil =>
      intro data h0 out h hd
      simp only [List.foldlM_nil] at h
      cases h
      rcases hd with hd | ⟨d, hd, _⟩
      · exact hd
      · cases hd
  | cons d ds ih =>
      intro data h0 out h hd
      simp only [List.foldlM_cons] at h
      cases hp : expandPass S d metadata collator data h0 with
      | none => rw [hp] at h; simp at h
      | some p =>
          obtain ⟨d1, h1⟩ := p
          rw [hp] at h
          simp only [Option.bind_eq_bind, Option.some_bind] at h
          by_cases hdn : d = GroupingType.none
          · subst hdn
            rcases hd with hflags | ⟨d', hd', hne'⟩
            · exact ih d1 h1 out h
                (Or.inl (expandPass_flags_of_all_false S _ metadata collator data h0 d1 h1 hp
                  hflags))
            · rcases List.mem_cons.mp hd' with rfl | hd'
              · exact absurd rfl hne'
              · exact ih d1 h1 out h (Or.inr ⟨d', hd', hne'⟩)
          · exact ih d1 h1 out h
              (Or.inl (expandPass_flags_of_not_none S d metadata collator data h0 d1 h1 hp hdn))

lemma inputAfter_foldl_of_all_false (sortFunction : Card → Card → Int) (cards : List Card)
    (l : List GroupingResult) (h : ∀ g ∈ l, g.aliased = false) :
    l.foldl (fun arr g => if g.aliased then jsSort (jsLe sortFunction) g.cards else arr)
      cards = cards := by
  induction l generalizing cards with
  | nil => rfl
  | cons g rest ih =>
      simp only [List.foldl_cons, h g (List.mem_cons_self g rest), if_false,
        Bool.false_eq_true]
      exact ih cards (fun x hx => h x (List.mem_cons_of_mem g hx))

lemma expandGroup_none_eq (S : SortingModule) (metadata : Metadata) (collator : Collator)
    (group : GroupingResult) :
    expandGroup S GroupingType.none metadata collator group =
      some [{ cards := group.cards, key := group.key ++ barChar :: str "all",
              type := group.type ++ barChar :: str "none", aliased := group.aliased }] := by
  unfold expandGroup applyGrouping
  simp [Option.map_some']

lemma expandPass_none_singleton (S : SortingModule) (metadata : Metadata)
    (collator : Collator) (cs : List Card) (k t : Str) (h0 : Hier) :
    ∃ h', expandPass S GroupingType.none metadata collator
        [{ cards := cs, key := k, type := t, aliased := true }] h0 =
      some ([{ cards := cs, key := k ++ barChar :: str "all",
               type := t ++ barChar :: str "none", aliased := true }], h') := by
  rw [expandPass_cons_some S GroupingType.none metadata collator _ [] h0 _
    (expandGroup_none_eq S metadata collator _)]
  rw [expandPass_nil]
  exact ⟨_, rfl⟩

lemma allNoneFold (S : SortingModule) (metadata : Metadata) (collator : Collator) :
    ∀ (dims : List GroupingType), (∀ d ∈ dims, d = GroupingType.none) →
      ∀ (cs : List Card) (k t : Str) (h0 : Hier),
        ∃ (k' t' : Str) (h' : Hier),
          dims.foldlM
              (fun acc grouping => expandPass S grouping metadata collator acc.1 acc.2)
              ([{ cards := cs, key := k, type := t, aliased := true }], h0) =
            some ([{ cards := cs, key := k', type := t', aliased := true }], h') := by
  intro dims
  induction dims with
  | nil =>
      intro _ cs k t h0
      exact ⟨k, t, h0, rfl⟩
  | cons d ds ih =>
      intro hall cs k t h0
      have hd : d = GroupingType.none := hall d (List.mem_cons_self d ds)
      subst hd
      obtain ⟨h1, hstep⟩ := expandPass_none_singleton S metadata collator cs k t h0
      simp only [List.foldlM_cons, hstep, Option.bind_eq_bind, Option.some_bind]
      exact ih (fun x hx => hall x (List.mem_cons_of_mem _ hx)) cs _ _ h1

end Aliasing

/-- Counterexample to C4 as stated: with the empty dimension list (treated as
`["none"]`), the single leaf's array is the caller's input array, and the
final in-place sort reorders it — after the call the input array is no longer
`[baseCard, cardB]`.  Metadata is never touched, but the input card array is
not read-only. -/
theorem c4_purity_counterexample :
    getGroupedCards S0 [] [baseCard, cardB] sortBFirst meta0 coll0 ≠ Option.none ∧
    getGroupedCardsInputAfter S0 [] [baseCard, cardB] sortBFirst meta0 coll0 =
      [cardB, baseCard] ∧
    getGroupedCardsInputAfter S0 [] [baseCard, cardB] sortBFirst meta0 coll0 ≠
      [baseCard, cardB] := by
  decide

/-- C4 (amended): `getGroupedCards` never mutates the metadata (the embedding
is pure on it), and it leaves the caller's card array unchanged whenever some
effective dimension differs from `none`; but when every effective dimension is
`none` (in particular for `[]` and `["none"]`), the single leaf group's array
is the caller's array itself and the final in-place sort leaves the input
array reordered to `jsSort` order. -/
theorem c4_input_array_mutation (S : SortingModule) (dims : List GroupingType)
    (cards : List Card) (sortFunction : Card → Card → Int) (metadata : Metadata)
    (collator : Collator) :
    ((∃ d ∈ (if dims.isEmpty then [GroupingType.none] else dims),
        d ≠ GroupingType.none) →
      getGroupedCardsInputAfter S dims cards sortFunction metadata collator = cards) ∧
    ((∀ d ∈ (if dims.isEmpty then [GroupingType.none] else dims),
        d = GroupingType.none) →
      getGroupedCardsInputAfter S dims cards sortFunction metadata collator =
        jsSort (jsLe sortFunction) cards) := by
  have heffne : (if dims.isEmpty then [GroupingType.none] else dims) ≠ [] := by
    by_cases he : dims.isEmpty
    · simp [he]
    · rw [if_neg he]
      intro hd
      exact he (by simp [hd])
  constructor
  · rintro ⟨d, hd, hdne⟩
    unfold getGroupedCardsInputAfter
    cases hdata : getGroupedCardsData S dims cards metadata collator with
    | none => rfl
    | some r =>
        apply inputAfter_foldl_of_all_false
        unfold getGroupedCardsData at hdata
        cases he2 : (if dims.isEmpty then [GroupingType.none] else dims) with
        | nil => exact absurd he2 heffne
        | cons e0 etail =>
            rw [he2] at hdata hd
            simp only [List.headD_cons, List.tail_cons] at hdata
            cases ha : applyGrouping S cards e0 metadata collator with
            | none => rw [ha] at hdata; simp at hdata
            | some data0 =>
                rw [ha] at hdata
                simp only [Option.bind_eq_bind, Option.some_bind] at hdata
                by_cases hlen : 1 < (e0 :: etail).length
                · rw [if_pos hlen] at hdata
                  refine foldPasses_flags S metadata collator etail data0 [] r hdata ?_
                  rcases List.mem_cons.mp hd with rfl | hd
                  · exact Or.inl
                      (applyGrouping_aliased_false S cards d metadata collator data0 hdne ha)
                  · exact Or.inr ⟨d, hd, hdne⟩
                · rw [if_neg hlen] at hdata
                  cases hdata
                  have hetail : etail = [] := by
                    simp only [List.length_cons] at hlen
                    cases etail with
                    | nil => rfl
                    | cons x xs => simp at hlen
                  subst hetail
                  rcases List.mem_cons.mp hd with rfl | hd
                  · exact applyGrouping_aliased_false S cards d metadata collator data0 hdne ha
                  · cases hd
  · intro hall
    have hmain : ∃ (k' t' : Str) (h' : Hier),
        getGroupedCardsData S dims cards metadata collator =
          some ([{ cards := cards, key := k', type := t', aliased := true }], h') := by
      unfold getGroupedCardsData
      cases he2 : (if dims.isEmpty then [GroupingType.none] else dims) with
      | nil => exact absurd he2 heffne
      | cons e0 etail =>
          rw [he2] at hall
          have he0 : e0 = GroupingType.none := hall e0 (List.mem_cons_self e0 etail)
          subst he0
          simp only [List.headD_cons, List.tail_cons]
          have ha : applyGrouping S cards GroupingType.none metadata collator =
              some [{ cards := cards, key := str "all", type := str "none",
                      aliased := true }] := rfl
          rw [ha]
          simp only [Option.bind_eq_bind, Option.some_bind]
          by_cases hlen : 1 < (GroupingType.none :: etail).length
          · rw [if_pos hlen]
            obtain ⟨k', t', h', hfold⟩ := allNoneFold S metadata collator etail
              (fun x hx => hall x (List.mem_cons_of_mem _ hx)) cards (str "all")
              (str "none") []
            exact ⟨k', t', h', hfold⟩
          · rw [if_neg hlen]
            exact ⟨str "all", str "none", _, rfl⟩
    obtain ⟨k', t', h', hdata⟩ := hmain
    unfold getGroupedCardsInputAfter
    rw [hdata]
    simp

/-- Witness for C4 (amended), at a non-`none` dimension list and at the empty
dimension list. -/
theorem c4_input_array_mutation_witness :
    getGroupedCardsInputAfter S0 [GroupingType.type] [baseCard, cardB] sortBFirst meta0
      coll0 = [baseCard, cardB] ∧
    getGroupedCardsInputAfter S0 [] [baseCard, cardB] sortBFirst meta0 coll0 =
      jsSort (jsLe sortBFirst) [baseCard, cardB] :=
  ⟨(c4_input_array_mutation S0 [GroupingType.type] [baseCard, cardB] sortBFirst meta0
      coll0).1 (by decide),
   (c4_input_array_mutation S0 [] [baseCard, cardB] sortBFirst meta0 coll0).2
      (by decide)⟩

/-! ### Decimal key strings

The numeric grouping keys of the `level`/`cost` dimensions are rendered with
`Int.repr` (JS `Number.prototype.toString`).  The hierarchy claims need three
facts about these strings: they never contain the composite-key separator
`"|"`, they never equal the sentinel `"none"`, and distinct numbers render
distinctly. -/

section DigitStrings

/-- The decimal value of a digit string, read left to right. -/
def digitsVal (l : List Char) : Nat :=
  l.foldl (fun a c => 10 * a + (c.toNat - 48)) 0

lemma digitsVal_append_singleton (l : List Char) (c : Char) :
    digitsVal (l ++ [c]) = 10 * digitsVal l + (c.toNat - 48) := by
  simp [digitsVal, List.foldl_append]

lemma digitChar_val (m : Nat) (h : m < 10) : (Nat.digitChar m).toNat - 48 = m := by
  interval_cases m <;> decide

lemma digitChar_isDigit (m : Nat) (h : m < 10) : (Nat.digitChar m).isDigit = true := by
  interval_cases m <;> decide

lemma toDigitsCore_append (fuel n : Nat) (acc : List Char) :
    Nat.toDigitsCore 10 fuel n acc = Nat.toDigitsCore 10 fuel n [] ++ acc := by
  induction fuel generalizing n acc with
  | zero => simp [Nat.toDigitsCore]
  | succ fuel ih =>
      simp only [Nat.toDigitsCore]
      by_cases h : n / 10 = 0
      · simp [h]
      · rw [if_neg h, if_neg h, ih (n / 10) [Nat.digitChar (n % 10)],
          ih (n / 10) (Nat.digitChar (n % 10) :: acc)]
        simp

lemma toDigitsCore_fuel (n : Nat) : ∀ f1 f2 : Nat, n < f1 → n < f2 → ∀ acc : List Char,
    Nat.toDigitsCore 10 f1 n acc = Nat.toDigitsCore 10 f2 n acc := by
  induction n using Nat.strong_induction_on with
  | _ n ih =>
      intro f1 f2 h1 h2 acc
      cases f1 with
      | zero => omega
      | succ f1 =>
          cases f2 with
          | zero => omega
          | succ f2 =>
              simp only [Nat.toDigitsCore]
              by_cases h : n / 10 = 0
              · simp [h]
              · rw [if_neg h, if_neg h]
                have hdiv : n / 10 < n := Nat.div_lt_self (by omega) (by omega)
                exact ih (n / 10) hdiv f1 f2 (by omega) (by omega) _

lemma toDigits_spec (n : Nat) :
    digitsVal (Nat.toDigits 10 n) = n ∧ ∀ c ∈ Nat.toDigits 10 n, c.isDigit = true := by
  induction n using Nat.strong_induction_on with
  | _ n ih =>
      rw [Nat.toDigits]
      simp only [Nat.toDigitsCore]
      by_cases h : n / 10 = 0
      · rw [if_pos h]
        have hn : n < 10 := by omega
        have hmod : n % 10 = n := Nat.mod_eq_of_lt hn
        constructor
        · show digitsVal [Nat.digitChar (n % 10)] = n
          rw [hmod]
          show 10 * 0 + ((Nat.digitChar n).toNat - 48) = n
          rw [digitChar_val n hn]
          omega
        · intro c hc
          rw [hmod] at hc
          rcases List.mem_singleton.mp hc with rfl
          exact digitChar_isDigit n hn
      · rw [if_neg h]
        have hdiv : n / 10 < n := Nat.div_lt_self (by omega) (by omega)
        rw [toDigitsCore_fuel (n / 10) n (n / 10 + 1) hdiv (by omega) _,
          toDigitsCore_append]
        obtain ⟨ihv, ihd⟩ := ih (n / 10) hdiv
        rw [Nat.toDigits] at ihv ihd
        constructor
        · rw [digitsVal_append_singleton, ihv, digitChar_val (n % 10) (by omega)]
          omega
        · intro c hc
          rcases List.mem_append.mp hc with hc | hc
          · exact ihd c hc
          · rcases List.mem_singleton.mp hc with rfl
            exact digitChar_isDigit (n % 10) (by omega)

lemma natRepr_data (n : Nat) : (Nat.repr n).data = Nat.toDigits 10 n := rfl

lemma intRepr_data_ofNat (n : Nat) : (Int.repr (Int.ofNat n)).data = Nat.toDigits 10 n := rfl

lemma intRepr_data_negSucc (n : Nat) :
    (Int.repr (Int.negSucc n)).data = '-' :: Nat.toDigits 10 (n + 1) := by
  show (("-" : String) ++ Nat.repr (n + 1)).data = '-' :: Nat.toDigits 10 (n + 1)
  rw [String.data_append, natRepr_data]
  rfl

lemma natRepr_inj (m n : Nat) (h : Nat.toDigits 10 m = Nat.toDigits 10 n) : m = n := by
  have := congrArg digitsVal h
  rwa [(toDigits_spec m).1, (toDigits_spec n).1] at this

lemma intRepr_inj (m n : Int) (h : (Int.repr m).data = (Int.repr n).data) : m = n := by
  cases m with
  | ofNat m =>
      cases n with
      | ofNat n =>
          rw [intRepr_data_ofNat, intRepr_data_ofNat] at h
          exact congrArg Int.ofNat (natRepr_inj m n h)
      | negSucc n =>
          rw [intRepr_data_ofNat, intRepr_data_negSucc] at h
          have hmem : '-' ∈ Nat.toDigits 10 m := by rw [h]; exact List.mem_cons_self _ _
          have := (toDigits_spec m).2 '-' hmem
          simp [Char.isDigit] at this
  | negSucc m =>
      cases n with
      | ofNat n =>
          rw [intRepr_data_negSucc, intRepr_data_ofNat] at h
          have hmem : '-' ∈ Nat.toDigits 10 n := by rw [← h]; exact List.mem_cons_self _ _
          have := (toDigits_spec n).2 '-' hmem
          simp [Char.isDigit] at this
      | negSucc n =>
          rw [intRepr_data_negSucc, intRepr_data_negSucc] at h
          simp only [List.cons.injEq, true_and] at h
          have hmn : m = n := by have := natRepr_inj (m + 1) (n + 1) h; omega
          exact congrArg Int.negSucc hmn

lemma intRepr_barFree (n : Int) : barChar ∉ (Int.repr n).data := by
  intro hmem
  cases n with
  | ofNat n =>
      rw [intRepr_data_ofNat] at hmem
      have := (toDigits_spec n).2 barChar hmem
      simp [barChar, Char.isDigit] at this
  | negSucc n =>
      rw [intRepr_data_negSucc] at hmem
      rcases List.mem_cons.mp hmem with h | h
      · simp [barChar] at h
      · have := (toDigits_spec (n + 1)).2 barChar h
        simp [barChar, Char.isDigit] at this

lemma intRepr_ne_NONE (n : Int) : (Int.repr n).data ≠ NONE := by
  intro h
  cases n with
  | ofNat n =>
      rw [intRepr_data_ofNat] at h
      have hmem : 'n' ∈ Nat.toDigits 10 n := by rw [h]; decide
      have := (toDigits_spec n).2 'n' hmem
      simp [Char.isDigit] at this
  | negSucc n =>
      rw [intRepr_data_negSucc] at h
      have : '-' = 'n' := by
        have := congrArg (fun l => l.headD ' ') h
        simp [NONE, str] at this
      simp at this

end DigitStrings

/-! ### Composite keys

The hierarchy keys produced by the expansion passes are bar-separated joins of
per-dimension segments.  `joinSegs` is the join; `KeyAt d k` says `k` is the
join of exactly `d` bar-free segments.  `splitParent` (the source's
`split("|").slice(0, -1).join("|")`) recovers the join of all but the last
segment. -/

section CompositeKeys

/-- A segment is bar-free when the composite-key separator does not occur
in it. -/
def BarFree (s : Str) : Prop := barChar ∉ s

instance (s : Str) : Decidable (BarFree s) := by unfold BarFree; infer_instance

/-- Join key segments with the bar separator. -/
def joinSegs (segs : List Str) : Str := List.intercalate [barChar] segs

lemma joinSegs_nil : joinSegs [] = [] := by simp [joinSegs, List.intercalate]

lemma joinSegs_single (s : Str) : joinSegs [s] = s := by
  simp [joinSegs, List.intercalate]

lemma joinSegs_cons_cons (s t : Str) (rest : List Str) :
    joinSegs (s :: t :: rest) = s ++ barChar :: joinSegs (t :: rest) := by
  simp [joinSegs, List.intercalate, List.intersperse]

lemma joinSegs_concat (l : List Str) (s : Str) (hl : l ≠ []) :
    joinSegs (l ++ [s]) = joinSegs l ++ barChar :: s := by
  induction l with
  | nil => exact absurd rfl hl
  | cons a t ih =>
      cases t with
      | nil =>
          show joinSegs [a, s] = joinSegs [a] ++ barChar :: s
          rw [joinSegs_cons_cons, joinSegs_single, joinSegs_single]
      | cons b u =>
          have ih' := ih (by simp)
          simp only [List.cons_append] at ih' ⊢
          rw [joinSegs_cons_cons a b (u ++ [s]), joinSegs_cons_cons a b u, ih']
          simp [List.append_assoc]

lemma splitOn_joinSegs (segs : List Str) (hne : segs ≠ [])
    (hbf : ∀ s ∈ segs, BarFree s) : (joinSegs segs).splitOn barChar = segs := by
  unfold joinSegs
  exact List.splitOn_intercalate segs barChar (fun l hl => hbf l hl) hne

/-- A key made of exactly `d` bar-free segments. -/
def KeyAt (d : Nat) (k : Str) : Prop :=
  0 < d ∧ ∃ segs : List Str, segs.length = d ∧ (∀ s ∈ segs, BarFree s) ∧ k = joinSegs segs

lemma KeyAt_one (s : Str) (h : BarFree s) : KeyAt 1 s :=
  ⟨Nat.one_pos, [s], rfl, by simpa using h, (joinSegs_single s).symm⟩

lemma KeyAt_child (d : Nat) (k s : Str) (hk : KeyAt d k) (hs : BarFree s) :
    KeyAt (d + 1) (k ++ barChar :: s) := by
  obtain ⟨hd, segs, hlen, hbf, rfl⟩ := hk
  refine ⟨by omega, segs ++ [s], by simp [hlen], ?_, ?_⟩
  · intro x hx
    rcases List.mem_append.mp hx with hx | hx
    · exact hbf x hx
    · rcases List.mem_singleton.mp hx with rfl; exact hs
  · rw [joinSegs_concat segs s (by intro h; rw [h] at hlen; simp at hlen; omega)]

lemma KeyAt_unique (d1 d2 : Nat) (k : Str) (h1 : KeyAt d1 k) (h2 : KeyAt d2 k) :
    d1 = d2 := by
  obtain ⟨hd1, segs1, hlen1, hbf1, rfl⟩ := h1
  obtain ⟨hd2, segs2, hlen2, hbf2, heq⟩ := h2
  have hne1 : segs1 ≠ [] := by intro h; rw [h] at hlen1; simp at hlen1; omega
  have hne2 : segs2 ≠ [] := by intro h; rw [h] at hlen2; simp at hlen2; omega
  have := (splitOn_joinSegs segs1 hne1 hbf1).symm.trans
    (heq ▸ splitOn_joinSegs segs2 hne2 hbf2)
  rw [← hlen1, ← hlen2, this]

lemma KeyAt_ne (d1 d2 : Nat) (k1 k2 : Str) (h1 : KeyAt d1 k1) (h2 : KeyAt d2 k2)
    (hne : d1 ≠ d2) : k1 ≠ k2 := by
  intro h
  exact hne (KeyAt_unique d1 d2 k1 h1 (h ▸ h2))

lemma KeyAt_child_inj (d : Nat) (k1 k2 s1 s2 : Str) (hk1 : KeyAt d k1)
    (hk2 : KeyAt d k2) (hs1 : BarFree s1) (hs2 : BarFree s2)
    (h : k1 ++ barChar :: s1 = k2 ++ barChar :: s2) : k1 = k2 ∧ s1 = s2 := by
  obtain ⟨hd1, segs1, hlen1, hbf1, rfl⟩ := hk1
  obtain ⟨hd2, segs2, hlen2, hbf2, rfl⟩ := hk2
  have hne1 : segs1 ≠ [] := by intro hh; rw [hh] at hlen1; simp at hlen1; omega
  have hne2 : segs2 ≠ [] := by intro hh; rw [hh] at hlen2; simp at hlen2; omega
  have hbf1' : ∀ s ∈ segs1 ++ [s1], BarFree s := by
    intro x hx
    rcases List.mem_append.mp hx with hx | hx
    · exact hbf1 x hx
    · rcases List.mem_singleton.mp hx with rfl; exact hs1
  have hbf2' : ∀ s ∈ segs2 ++ [s2], BarFree s := by
    intro x hx
    rcases List.mem_append.mp hx with hx | hx
    · exact hbf2 x hx
    · rcases List.mem_singleton.mp hx with rfl; exact hs2
  have hj : joinSegs (segs1 ++ [s1]) = joinSegs (segs2 ++ [s2]) := by
    rw [joinSegs_concat segs1 s1 hne1, joinSegs_concat segs2 s2 hne2]
    exact h
  have hsegs : segs1 ++ [s1] = segs2 ++ [s2] := by
    rw [← splitOn_joinSegs (segs1 ++ [s1]) (by simp) hbf1',
      ← splitOn_joinSegs (segs2 ++ [s2]) (by simp) hbf2', hj]
  have hlen : segs1.length = segs2.length := by rw [hlen1, hlen2]
  obtain ⟨hseq, hsing⟩ := List.append_inj hsegs hlen
  constructor
  · rw [hseq]
  · simpa using hsing

lemma splitParent_root (k : Str) (h : BarFree k) : splitParent k = Option.none := by
  unfold splitParent
  rw [if_neg h]

lemma splitParent_child (d : Nat) (k s : Str) (hk : KeyAt d k) (hs : BarFree s) :
    splitParent (k ++ barChar :: s) = some k := by
  obtain ⟨hd, segs, hlen, hbf, rfl⟩ := hk
  have hne : segs ≠ [] := by intro hh; rw [hh] at hlen; simp at hlen; omega
  have hbf' : ∀ x ∈ segs ++ [s], BarFree x := by
    intro x hx
    rcases List.mem_append.mp hx with hx | hx
    · exact hbf x hx
    · rcases List.mem_singleton.mp hx with rfl; exact hs
  unfold splitParent
  rw [if_pos (by simp)]
  have hsplit : (joinSegs segs ++ barChar :: s).splitOn barChar = segs ++ [s] := by
    rw [← joinSegs_concat segs s hne]
    exact splitOn_joinSegs (segs ++ [s]) (by simp) hbf'
  rw [hsplit, List.dropLast_concat]
  rfl

end CompositeKeys

/-! ### The hierarchy record: insertion, children, and consistency -/

section HierarchyLemmas

/-- The sum of the recorded counts of the direct children of `p` (the entries
whose `parent` field is `p`); entries with a different parent contribute 0. -/
def childSum (h : Hier) (p : Str) : Nat :=
  (h.map (fun kv => if kv.2.parent = some p then kv.2.count else 0)).sum

/-- One hierarchy entry is consistent: either it has no parent, or its parent
key is present in the map and the parent's recorded count equals the sum of
the counts of the parent's direct children.  (An entry with a parent is itself
a direct child of that parent, so the parent always has at least one child and
the claim's "own leaf card count when it has no children" branch cannot apply
to it.) -/
def entryOK (h : Hier) (e : GroupTreeEntry) : Bool :=
  match e.parent with
  | Option.none => true
  | some p =>
      match alGet h p with
      | Option.none => false
      | some pe => pe.count == childSum h p

/-- Every entry of the hierarchy is consistent (propositional form used by the
invariant proofs). -/
def hierOK (h : Hier) : Prop :=
  ∀ kv ∈ h, ∀ p, kv.2.parent = some p →
    ∃ pe, alGet h p = some pe ∧ pe.count = childSum h p

/-- The returned structure satisfies the claim's parent-consistency property. -/
def hierConsistent (gc : GroupedCards) : Prop :=
  ∀ kv ∈ gc.hierarchy, entryOK gc.hierarchy kv.2 = true

lemma hierConsistent_of_hierOK (gc : GroupedCards) (h : hierOK gc.hierarchy) :
    hierConsistent gc := by
  intro kv hkv
  unfold entryOK
  cases hp : kv.2.parent with
  | none => simp
  | some p =>
      obtain ⟨pe, hpe, hcount⟩ := h kv hkv p hp
      simp [hpe, hcount]

/-- The canonical hierarchy entry recorded for a group. -/
def canonEntry (g : GroupingResult) : GroupTreeEntry :=
  { key := g.key, type := g.type, count := g.cards.length, parent := splitParent g.key }

lemma alGet_append_left {K V : Type} [DecidableEq K] (l l' : List (K × V)) (k : K)
    (v : V) (h : alGet l k = some v) : alGet (l ++ l') k = some v := by
  induction l with
  | nil => simp [alGet] at h
  | cons kv rest ih =>
      obtain ⟨a, w⟩ := kv
      by_cases ha : a = k
      · subst ha
        simp only [alGet, if_pos rfl] at h ⊢
        exact h
      · simp only [alGet, if_neg ha] at h ⊢
        exact ih h

lemma alGet_append_none {K V : Type} [DecidableEq K] (l l' : List (K × V)) (k : K)
    (h : alGet l k = Option.none) : alGet (l ++ l') k = alGet l' k := by
  induction l with
  | nil => simp
  | cons kv rest ih =>
      obtain ⟨a, w⟩ := kv
      by_cases ha : a = k
      · subst ha
        simp [alGet] at h
      · simp only [alGet, if_neg ha] at h
        simp only [List.cons_append, alGet, if_neg ha]
        exact ih h

/-- Looking a mapped group list up at a member's key. -/
lemma alGet_map_mem (f : GroupingResult → GroupTreeEntry) (l : List GroupingResult)
    (hnd : (l.map GroupingResult.key).Nodup) (g : GroupingResult) (hg : g ∈ l) :
    alGet (l.map (fun x => (x.key, f x))) g.key = some (f g) := by
  induction l with
  | nil => cases hg
  | cons a t ih =>
      simp only [List.map_cons, List.nodup_cons] at hnd
      rcases List.mem_cons.mp hg with rfl | hg
      · simp [alGet]
      · have hne : ¬a.key = g.key := by
          intro he
          exact hnd.1 (he ▸ List.mem_map_of_mem GroupingResult.key hg)
        simp only [List.map_cons, alGet, if_neg hne]
        exact ih hnd.2 hg

lemma alGet_map_none (f : GroupingResult → GroupTreeEntry) (l : List GroupingResult)
    (k : Str) (hk : ∀ g ∈ l, g.key ≠ k) :
    alGet (l.map (fun x => (x.key, f x))) k = Option.none := by
  rw [alGet_eq_none_iff]
  intro hmem
  simp only [List.map_map, List.mem_map] at hmem
  obtain ⟨g, hg, hgk⟩ := hmem
  exact hk g hg hgk

lemma hinsert_absent (h : Hier) (k : Str) (e : GroupTreeEntry)
    (hk : alGet h k = Option.none) : hinsert h k e = h ++ [(k, e)] := by
  unfold hinsert
  rw [hk]

lemma alReplace_same (h : Hier) (k : Str) (e : GroupTreeEntry)
    (hnd : (h.map Prod.fst).Nodup) (hk : alGet h k = some e) :
    h.map (fun kv => if kv.1 = k then (k, e) else kv) = h := by
  induction h with
  | nil => rfl
  | cons kv rest ih =>
      obtain ⟨a, w⟩ := kv
      simp only [List.map_cons, List.nodup_cons] at hnd
      by_cases ha : a = k
      · subst ha
        have hw : w = e := by simpa [alGet] using hk
        subst hw
        have hrest : rest.map (fun kv => if kv.1 = a then (a, w) else kv) = rest := by
          conv_rhs => rw [← List.map_id rest]
          apply List.map_congr_left
          intro kv hkv
          have hne : ¬kv.1 = a := by
            intro heq
            exact hnd.1 (heq ▸ List.mem_map_of_mem Prod.fst hkv)
          simp [if_neg hne]
        simp [hrest]
      · simp only [alGet, if_neg ha] at hk
        simp only [List.map_cons, if_neg ha]
        rw [ih hnd.2 hk]

lemma hinsert_present_same (h : Hier) (k : Str) (e : GroupTreeEntry)
    (hnd : (h.map Prod.fst).Nodup) (hk : alGet h k = some e) : hinsert h k e = h := by
  unfold hinsert
  rw [hk]
  exact alReplace_same h k e hnd hk

lemma childSum_append (h1 h2 : Hier) (p : Str) :
    childSum (h1 ++ h2) p = childSum h1 p + childSum h2 p := by
  simp [childSum]

lemma childSum_eq_zero (h : Hier) (p : Str)
    (hp : ∀ kv ∈ h, kv.2.parent ≠ some p) : childSum h p = 0 := by
  unfold childSum
  apply List.sum_eq_zero
  intro x hx
  rcases List.mem_map.mp hx with ⟨kv, hkv, rfl⟩
  rw [if_neg (hp kv hkv)]

/-- Recording a run of fresh entries is an append. -/
lemma foldl_hinsert_fresh (f : GroupingResult → GroupTreeEntry) :
    ∀ (rows : List GroupingResult) (h : Hier),
      (∀ g ∈ rows, alGet h g.key = Option.none) →
      ((rows.map GroupingResult.key).Nodup) →
      rows.foldl (fun h g => hinsert h g.key (f g)) h =
        h ++ rows.map (fun g => (g.key, f g)) := by
  intro rows
  induction rows with
  | nil => intro h _ _; simp
  | cons g t ih =>
      intro h hfresh hnd
      simp only [List.map_cons, List.nodup_cons] at hnd
      simp only [List.foldl_cons]
      rw [hinsert_absent h g.key (f g) (hfresh g (List.mem_cons_self g t))]
      rw [ih (h ++ [(g.key, f g)]) ?_ hnd.2]
      · simp
      · intro x hx
        have hxk : ¬g.key = x.key := by
          intro he
          exact hnd.1 (he ▸ List.mem_map_of_mem GroupingResult.key hx)
        rw [alGet_append_single_ne h g.key x.key (f g) hxk]
        exact hfresh x (List.mem_cons_of_mem g hx)

end HierarchyLemmas

/-! ### Per-dimension partition descriptions -/

section DimensionDesc

variable {K : Type} [DecidableEq K]

/-- The card fields that can become group-key segments are bar-free. -/
def CardBarFree (c : Card) : Prop :=
  BarFree c.type_code ∧ BarFree (c.real_slot.getD NONE) ∧ BarFree c.faction_code ∧
    BarFree (c.encounter_code.getD NONE)

instance (c : Card) : Decidable (CardBarFree c) := by
  unfold CardBarFree
  infer_instance

/-- The metadata codes that can become group-key segments are bar-free. -/
def MetaBarFree (m : Metadata) : Prop :=
  (∀ code p, m.packs code = some p → BarFree p.code) ∧
    (∀ code c, m.cycles code = some c → BarFree c.code)

/-- Closed form of the shared reduce/omit/sort/convert pipeline: the result is
one group per surviving key, holding exactly the input cards with that key. -/
lemma pipeline_desc (keyOf : Card → K) (cards : List Card) (t : Str)
    (le : K → K → Bool) (ks : K → Str) :
    ∃ keys : List K, keys.Nodup ∧ (∀ k ∈ keys, ∃ c ∈ cards, keyOf c = k) ∧
      toGroupingResult ks
        { omitEmptyGroupings
            (cards.foldl (fun acc card => addCard acc (keyOf card) card)
              { data := [], groupings := [], type := t }) with
          groupings :=
            jsSort le (omitEmptyGroupings
              (cards.foldl (fun acc card => addCard acc (keyOf card) card)
                { data := [], groupings := [], type := t })).groupings } =
      keys.map (fun k =>
        { cards := cards.filter (fun c => keyOf c = k), key := ks k, type := t,
          aliased := false }) := by
  set init : Grouping K := { data := [], groupings := [], type := t } with hinit
  have hWFinit : gWF init := ⟨rfl, List.nodup_nil⟩
  set folded := cards.foldl (fun acc card => addCard acc (keyOf card) card) init with hfolded
  have hWFfold : gWF folded := foldAdd_WF keyOf cards init hWFinit
  obtain ⟨oWF, oSub, oFlat, oType, oGet, oSurv⟩ := omitEmpty_props folded hWFfold
  set omitted := omitEmptyGroupings folded with homitted
  refine ⟨jsSort le omitted.groupings, ?_, ?_, ?_⟩
  · exact ((jsSort_perm le omitted.groupings).nodup_iff).mpr oWF.2
  · intro k hk
    have hk1 : k ∈ omitted.groupings := ((jsSort_perm le omitted.groupings).mem_iff).mp hk
    have hk2 : k ∈ folded.groupings := oSub.subset hk1
    rcases foldAdd_groupings_origin keyOf cards init k hk2 with h | h
    · rw [hinit] at h
      cases h
    · exact h
  · unfold toGroupingResult
    apply List.map_congr_left
    intro k hk
    have hk1 : k ∈ omitted.groupings := ((jsSort_perm le omitted.groupings).mem_iff).mp hk
    have hbucket : (alGet omitted.data k).getD [] = cards.filter (fun c => keyOf c = k) := by
      show bucket omitted k = _
      unfold bucket
      rw [oGet k hk1]
      have hb := foldAdd_bucket keyOf cards init k
      unfold bucket at hb
      rw [← hfolded] at hb
      rw [hb, hinit]
      simp [alGet]
    have htype : omitted.type = t := by
      rw [oType, hfolded, foldAdd_type, hinit]
    simp [hbucket, htype]

/-- Key distinctness and card provenance, from a closed-form description. -/
lemma desc_of_closed_form (gs : List GroupingResult) (keys : List K) (ks : K → Str)
    (keyOf : Card → K) (cards : List Card) (t : Str)
    (hnd : keys.Nodup)
    (hinj : ∀ k1 ∈ keys, ∀ k2 ∈ keys, ks k1 = ks k2 → k1 = k2)
    (heq : gs = keys.map (fun k =>
      { cards := cards.filter (fun c => keyOf c = k), key := ks k, type := t,
        aliased := false })) :
    ((gs.map GroupingResult.key).Nodup) ∧ (∀ g ∈ gs, ∀ c ∈ g.cards, c ∈ cards) := by
  subst heq
  constructor
  · rw [List.map_map]
    exact List.Nodup.map_on hinj hnd
  · intro g hg c hc
    rcases List.mem_map.mp hg with ⟨k, hk, rfl⟩
    exact (List.mem_filter.mp hc).1

/-- Group sizes sum to the input size whenever the groups cover the input. -/
lemma sum_of_coverage (gs : List GroupingResult) (cards : List Card)
    (h : (gs.flatMap GroupingResult.cards).Perm cards) :
    (gs.map (fun g => g.cards.length)).sum = cards.length := by
  have hlen := h.length_eq
  rwa [List.length_flatMap] at hlen

/-- Bar-freeness of every group key, from a closed-form description. -/
lemma barFree_of_closed_form (gs : List GroupingResult) (keys : List K) (ks : K → Str)
    (keyOf : Card → K) (cards : List Card) (t : Str)
    (hbf : ∀ k ∈ keys, BarFree (ks k))
    (heq : gs = keys.map (fun k =>
      { cards := cards.filter (fun c => keyOf c = k), key := ks k, type := t,
        aliased := false })) :
    ∀ g ∈ gs, BarFree g.key := by
  subst heq
  intro g hg
  rcases List.mem_map.mp hg with ⟨k, hk, rfl⟩
  exact hbf k hk

/-- The shape of a resolved `cycle` bucket key. -/
lemma cycleKeyOf_shape (metadata : Metadata) (card : Card) (v : Str)
    (h : cycleKeyOf metadata card = some v) :
    ∃ code cyc, metadata.cycles code = some cyc ∧ v = cyc.code := by
  unfold cycleKeyOf at h
  cases hp : metadata.packs card.pack_code with
  | none => rw [hp] at h; simp at h
  | some pack =>
      rw [hp] at h
      simp only [Option.bind_eq_bind, Option.some_bind] at h
      cases hc : metadata.cycles pack.cycle_code with
      | none => rw [hc] at h; simp at h
      | some cyc =>
          rw [hc] at h
          simp only [Option.some_bind, Option.some.injEq] at h
          exact ⟨pack.cycle_code, cyc, hc, h.symm⟩

/-- The shape of a resolved `pack` bucket key. -/
lemma packKeyOf_shape (metadata : Metadata) (card : Card) (v : Str)
    (h : packKeyOf metadata card = some v) :
    ∃ code p, metadata.packs code = some p ∧ v = p.code := by
  unfold packKeyOf at h
  cases hp : metadata.packs card.pack_code with
  | none => rw [hp] at h; simp at h
  | some pack =>
      rw [hp] at h
      simp only [Option.bind_eq_bind, Option.some_bind, Option.some.injEq] at h
      cases hrp : metadata.packs (pack.cycle_code ++
          (if (if strTruthy card.encounter_code then str "encounter" else str "player") =
            str "encounter" then ['c'] else ['p'])) with
      | none =>
          rw [hrp] at h
          have h' : pack.code = v := h
          exact ⟨card.pack_code, pack, hp, h'.symm⟩
      | some rp =>
          rw [hrp] at h
          have h' : (if rp.reprint = true then rp else pack).code = v := h
          by_cases hb : rp.reprint = true
          · rw [if_pos hb] at h'
            exact ⟨_, rp, hrp, h'.symm⟩
          · rw [if_neg hb] at h'
            exact ⟨card.pack_code, pack, hp, h'.symm⟩

end DimensionDesc

section ApplyDesc

lemma barFree_key (cs : List Card) (k t : Str) (a : Bool) (h : BarFree k) :
    BarFree (GroupingResult.mk cs k t a).key := h

/-- The shape of the `level`/`cost` bucket keys, and injectivity of their
string rendering. -/
lemma jkey_inj (keys : List JKey)
    (hshape : ∀ k ∈ keys, (∃ n : Int, k = JKey.num n) ∨ k = JKey.str NONE) :
    ∀ k1 ∈ keys, ∀ k2 ∈ keys, JKey.toString k1 = JKey.toString k2 → k1 = k2 := by
  intro k1 hk1 k2 hk2 heq
  rcases hshape k1 hk1 with ⟨n1, rfl⟩ | rfl <;> rcases hshape k2 hk2 with ⟨n2, rfl⟩ | rfl
  · exact congrArg JKey.num (intRepr_inj n1 n2 heq)
  · exact absurd heq (intRepr_ne_NONE n1)
  · exact absurd heq.symm (intRepr_ne_NONE n2)
  · rfl

lemma jkey_barFree (keys : List JKey)
    (hshape : ∀ k ∈ keys, (∃ n : Int, k = JKey.num n) ∨ k = JKey.str NONE) :
    ∀ k ∈ keys, BarFree (JKey.toString k) := by
  intro k hk
  rcases hshape k hk with ⟨n, rfl⟩ | rfl
  · exact intRepr_barFree n
  · decide

/-- Description of every dimension's partition, as needed by the hierarchy
invariant: group keys are pairwise distinct; every group's cards come from the
input list; for every dimension except `subtype` the group sizes sum to the
input size (no card is dropped or duplicated); and group keys are bar-free
whenever the relevant card fields and metadata codes are. -/
lemma applyGrouping_desc (S : SortingModule) (cards : List Card)
    (grouping : GroupingType) (metadata : Metadata) (collator : Collator)
    (gs : List GroupingResult)
    (h : applyGrouping S cards grouping metadata collator = some gs) :
    ((gs.map GroupingResult.key).Nodup) ∧
    (∀ g ∈ gs, ∀ c ∈ g.cards, c ∈ cards) ∧
    (grouping ≠ GroupingType.subtype →
      (gs.map (fun g => g.cards.length)).sum = cards.length) ∧
    ((∀ c ∈ cards, CardBarFree c) → MetaBarFree metadata → ∀ g ∈ gs, BarFree g.key) := by
  cases grouping with
  | none =>
      cases h
      refine ⟨by simp, ?_, by simp, ?_⟩
      · intro g hg c hc
        rcases List.mem_singleton.mp hg with rfl
        exact hc
      · intro _ _ g hg
        rcases List.mem_singleton.mp hg with rfl
        exact barFree_key _ _ _ _ (by decide)
  | subtype =>
      cases h
      refine ⟨?_, ?_, fun hne => absurd rfl hne, ?_⟩
      · rw [groupBySubtypeCode_eq]
        by_cases ha : cards.filter (fun x => subKey x = NONE) = [] <;>
          by_cases hc : cards.filter (fun x => subKey x = str "basicweakness") = [] <;>
            simp [ha, hc] <;> decide
      · intro g hg c hcrd
        rw [groupBySubtypeCode_eq] at hg
        by_cases ha : cards.filter (fun x => subKey x = NONE) = [] <;>
          by_cases hc : cards.filter (fun x => subKey x = str "basicweakness") = [] <;>
            simp only [ha, hc, if_pos, if_neg, List.mem_cons, List.mem_singleton,
              List.not_mem_nil, or_false, if_true, if_false] at hg <;>
          · rcases hg with hg | hg | hg <;>
              (try subst hg) <;>
              simp_all [List.mem_filter]
      · intro _ _ g hg
        rw [groupBySubtypeCode_eq] at hg
        by_cases ha : cards.filter (fun x => subKey x = NONE) = [] <;>
          by_cases hc : cards.filter (fun x => subKey x = str "basicweakness") = [] <;>
            simp only [ha, hc, if_pos, if_neg, List.mem_cons, List.mem_singleton,
              List.not_mem_nil, or_false, if_true, if_false] at hg <;>
          · have hkg :
                g = ⟨cards.filter (fun x => subKey x = NONE), NONE, str "subtype", false⟩ ∨
                g = ⟨cards.filter (fun x => subKey x = str "weakness"), str "weakness",
                      str "subtype", false⟩ ∨
                g = ⟨cards.filter (fun x => subKey x = str "basicweakness"),
                      str "basicweakness", str "subtype", false⟩ := by tauto
            rcases hkg with rfl | rfl | rfl <;> exact barFree_key _ _ _ _ (by decide)
  | base_upgrades =>
      cases h
      refine ⟨?_, ?_, ?_, ?_⟩
      · rw [groupByLevel0VsUpgrade_eq]
        by_cases hf : cards.filter xpFalsy = [] <;> simp [hf] <;> decide
      · intro g hg c hcrd
        rw [groupByLevel0VsUpgrade_eq] at hg
        by_cases hf : cards.filter xpFalsy = [] <;>
          simp only [hf, if_pos, if_neg, List.mem_cons, List.mem_singleton,
            List.not_mem_nil, or_false, if_true, if_false] at hg <;>
        · rcases hg with hg | hg <;>
            (try subst hg) <;>
            simp_all [List.mem_filter]
      · intro _
        exact sum_of_coverage _ cards (groupByLevel0VsUpgrade_coverage cards)
      · intro _ _ g hg
        rw [groupByLevel0VsUpgrade_eq] at hg
        by_cases hf : cards.filter xpFalsy = [] <;>
          simp only [hf, if_pos, if_neg, List.mem_cons, List.mem_singleton,
            List.not_mem_nil, or_false, if_true, if_false] at hg <;>
        · have hkg :
              g = ⟨cards.filter xpFalsy, LEVEL_0, str "base_upgrades", false⟩ ∨
              g = ⟨cards.filter (fun c => !xpFalsy c), UPGRADE, str "base_upgrades",
                    false⟩ := by tauto
          rcases hkg with rfl | rfl <;> exact barFree_key _ _ _ _ (by decide)
  | type =>
      cases h
      obtain ⟨keys, hnd, horig, heq⟩ := pipeline_desc (fun card => card.type_code) cards
        (str "type") (jsLe S.sortTypesByOrder) id
      have heq' : groupByTypeCode S cards = keys.map (fun k =>
          { cards := cards.filter (fun c => c.type_code = k), key := id k,
            type := str "type", aliased := false }) := by
        unfold groupByTypeCode
        exact heq
      obtain ⟨hA, hB⟩ := desc_of_closed_form _ keys id _ cards _ hnd
        (fun k1 _ k2 _ hk => hk) heq'
      refine ⟨hA, hB, ?_, ?_⟩
      · intro _
        exact sum_of_coverage _ cards (groupByTypeCode_coverage S cards)
      · intro hcb _
        refine barFree_of_closed_form _ keys id _ cards _ ?_ heq'
        intro k hk
        obtain ⟨c, hc, hck⟩ := horig k hk
        rw [← hck]
        exact (hcb c hc).1
  | slot =>
      cases h
      obtain ⟨keys, hnd, horig, heq⟩ := pipeline_desc
        (fun card => if card.permanent then str "permanent" else card.real_slot.getD NONE)
        cards (str "slot") (jsLe (S.sortBySlots collator)) id
      have heq' : groupBySlots S cards collator = keys.map (fun k =>
          { cards := cards.filter (fun c =>
              (if c.permanent then str "permanent" else c.real_slot.getD NONE) = k),
            key := id k, type := str "slot", aliased := false }) := by
        unfold groupBySlots
        exact heq
      obtain ⟨hA, hB⟩ := desc_of_closed_form _ keys id _ cards _ hnd
        (fun k1 _ k2 _ hk => hk) heq'
      refine ⟨hA, hB, ?_, ?_⟩
      · intro _
        exact sum_of_coverage _ cards (groupBySlots_coverage S cards collator)
      · intro hcb _
        refine barFree_of_closed_form _ keys id _ cards _ ?_ heq'
        intro k hk
        obtain ⟨c, hc, hck⟩ := horig k hk
        rw [← hck]
        by_cases hperm : c.permanent = true
        · simp only [hperm, if_true]
          decide
        · simp only [hperm, Bool.false_eq_true, if_false]
          exact (hcb c hc).2.1
  | faction =>
      cases h
      obtain ⟨keys, hnd, horig, heq⟩ := pipeline_desc
        (fun card => if strTruthy card.faction2_code then str "multiclass"
          else card.faction_code)
        cards (str "faction") (jsLe S.sortByFactionOrder) id
      have heq' : groupByFaction S cards = keys.map (fun k =>
          { cards := cards.filter (fun c =>
              (if strTruthy c.faction2_code then str "multiclass" else c.faction_code) = k),
            key := id k, type := str "faction", aliased := false }) := by
        unfold groupByFaction
        exact heq
      obtain ⟨hA, hB⟩ := desc_of_closed_form _ keys id _ cards _ hnd
        (fun k1 _ k2 _ hk => hk) heq'
      refine ⟨hA, hB, ?_, ?_⟩
      · intro _
        exact sum_of_coverage _ cards (groupByFaction_coverage S cards)
      · intro hcb _
        refine barFree_of_closed_form _ keys id _ cards _ ?_ heq'
        intro k hk
        obtain ⟨c, hc, hck⟩ := horig k hk
        rw [← hck]
        by_cases hf2 : strTruthy c.faction2_code = true
        · simp only [hf2, if_true]
          decide
        · simp only [hf2, Bool.false_eq_true, if_false]
          exact (hcb c hc).2.2.1
  | encounter_set =>
      cases h
      obtain ⟨keys, hnd, horig, heq⟩ := pipeline_desc
        (fun card => card.encounter_code.getD NONE) cards (str "encounter_set")
        (jsLe (S.sortByEncounterSet metadata collator)) id
      have heq' : groupByEncounterSet S cards metadata collator = keys.map (fun k =>
          { cards := cards.filter (fun c => c.encounter_code.getD NONE = k),
            key := id k, type := str "encounter_set", aliased := false }) := by
        unfold groupByEncounterSet
        exact heq
      obtain ⟨hA, hB⟩ := desc_of_closed_form _ keys id _ cards _ hnd
        (fun k1 _ k2 _ hk => hk) heq'
      refine ⟨hA, hB, ?_, ?_⟩
      · intro _
        exact sum_of_coverage _ cards (groupByEncounterSet_coverage S cards metadata collator)
      · intro hcb _
        refine barFree_of_closed_form _ keys id _ cards _ ?_ heq'
        intro k hk
        obtain ⟨c, hc, hck⟩ := horig k hk
        rw [← hck]
        exact (hcb c hc).2.2.2
  | level =>
      cases h
      obtain ⟨keys, hnd, horig, heq⟩ := pipeline_desc
        (fun card => match card.xp with
          | some xp => JKey.num xp
          | Option.none => JKey.str NONE)
        cards (str "level")
        (jsLe (fun a b =>
          if a = JKey.str NONE then -1
          else if b = JKey.str NONE then 1
          else S.sortNumerical a.numD b.numD))
        JKey.toString
      have hshape : ∀ k ∈ keys, (∃ n : Int, k = JKey.num n) ∨ k = JKey.str NONE := by
        intro k hk
        obtain ⟨c, _, hck⟩ := horig k hk
        cases hxp : c.xp with
        | none => right; rw [← hck]; simp [hxp]
        | some n => left; exact ⟨n, by rw [← hck]; simp [hxp]⟩
      have heq' : groupByLevel S cards = keys.map (fun k =>
          { cards := cards.filter (fun c =>
              (match c.xp with
                | some xp => JKey.num xp
                | Option.none => JKey.str NONE) = k),
            key := JKey.toString k, type := str "level", aliased := false }) := by
        unfold groupByLevel
        exact heq
      obtain ⟨hA, hB⟩ := desc_of_closed_form _ keys JKey.toString _ cards _ hnd
        (jkey_inj keys hshape) heq'
      refine ⟨hA, hB, ?_, ?_⟩
      · intro _
        exact sum_of_coverage _ cards (groupByLevel_coverage S cards)
      · intro _ _
        exact barFree_of_closed_form _ keys JKey.toString _ cards _
          (jkey_barFree keys hshape) heq'
  | cost =>
      cases h
      obtain ⟨keys, hnd, horig, heq⟩ := pipeline_desc
        (fun card => match card.cost with
          | some cost => JKey.num cost
          | Option.none => JKey.str NONE)
        cards (str "cost")
        (jsLe (fun a b =>
          if a = JKey.str NONE then -1
          else if b = JKey.str NONE then 1
          else S.sortNumerical a.numD b.numD))
        JKey.toString
      have hshape : ∀ k ∈ keys, (∃ n : Int, k = JKey.num n) ∨ k = JKey.str NONE := by
        intro k hk
        obtain ⟨c, _, hck⟩ := horig k hk
        cases hxp : c.cost with
        | none => right; rw [← hck]; simp [hxp]
        | some n => left; exact ⟨n, by rw [← hck]; simp [hxp]⟩
      have heq' : groupByCost S cards = keys.map (fun k =>
          { cards := cards.filter (fun c =>
              (match c.cost with
                | some cost => JKey.num cost
                | Option.none => JKey.str NONE) = k),
            key := JKey.toString k, type := str "cost", aliased := false }) := by
        unfold groupByCost
        exact heq
      obtain ⟨hA, hB⟩ := desc_of_closed_form _ keys JKey.toString _ cards _ hnd
        (jkey_inj keys hshape) heq'
      refine ⟨hA, hB, ?_, ?_⟩
      · intro _
        exact sum_of_coverage _ cards (groupByCost_coverage S cards)
      · intro _ _
        exact barFree_of_closed_form _ keys JKey.toString _ cards _
          (jkey_barFree keys hshape) heq'
  | cycle =>
      unfold applyGrouping at h
      have hcov := groupByCycle_coverage cards metadata gs h
      unfold groupByCycle at h
      cases hf : cards.foldlM
          (fun acc card => (cycleKeyOf metadata card).map (fun key => addCard acc key card))
          { data := [], groupings := [], type := str "cycle" } with
      | none => rw [hf] at h; simp at h
      | some res =>
          rw [hf] at h
          simp only [Option.bind_eq_bind, Option.some_bind] at h
          split at h
          · obtain ⟨heqr, _⟩ := foldlM_addCard_eq (cycleKeyOf metadata) [] cards _ res hf
            subst heqr
            obtain ⟨keys, hnd, horig, heq⟩ := pipeline_desc
              (fun card => (cycleKeyOf metadata card).getD []) cards (str "cycle")
              (jsLe fun a b => cyclePosD metadata a - cyclePosD metadata b) id
            rw [heq] at h
            cases h
            obtain ⟨hA, hB⟩ := desc_of_closed_form _ keys id _ cards _ hnd
              (fun k1 _ k2 _ hk => hk) rfl
            refine ⟨hA, hB, ?_, ?_⟩
            · intro _
              exact sum_of_coverage _ cards hcov
            · intro _ hmb
              refine barFree_of_closed_form _ keys id _ cards _ ?_ rfl
              intro k hk
              obtain ⟨c, _, hck⟩ := horig k hk
              cases hcy : cycleKeyOf metadata c with
              | none =>
                  rw [hcy] at hck
                  rw [← hck]
                  intro hmem
                  cases hmem
              | some v =>
                  rw [hcy] at hck
                  obtain ⟨code, cyc, hcyc, rfl⟩ := cycleKeyOf_shape metadata c v hcy
                  rw [← hck]
                  exact hmb.2 code cyc hcyc
          · cases h
  | pack =>
      unfold applyGrouping at h
      have hcov := groupByPack_coverage cards metadata gs h
      unfold groupByPack at h
      cases hf : cards.foldlM
          (fun acc card => (packKeyOf metadata card).map (fun key => addCard acc key card))
          { data := [], groupings := [], type := str "pack" } with
      | none => rw [hf] at h; simp at h
      | some res =>
          rw [hf] at h
          simp only [Option.bind_eq_bind, Option.some_bind] at h
          split at h
          · obtain ⟨heqr, _⟩ := foldlM_addCard_eq (packKeyOf metadata) [] cards _ res hf
            subst heqr
            obtain ⟨keys, hnd, horig, heq⟩ := pipeline_desc
              (fun card => (packKeyOf metadata card).getD []) cards (str "pack")
              (jsLe fun a b =>
                if (packRankD metadata a).1 ≠ (packRankD metadata b).1 then
                  (packRankD metadata a).1 - (packRankD metadata b).1
                else (packRankD metadata a).2 - (packRankD metadata b).2)
              id
            rw [heq] at h
            cases h
            obtain ⟨hA, hB⟩ := desc_of_closed_form _ keys id _ cards _ hnd
              (fun k1 _ k2 _ hk => hk) rfl
            refine ⟨hA, hB, ?_, ?_⟩
            · intro _
              exact sum_of_coverage _ cards hcov
            · intro _ hmb
              refine barFree_of_closed_form _ keys id _ cards _ ?_ rfl
              intro k hk
              obtain ⟨c, _, hck⟩ := horig k hk
              cases hpk : packKeyOf metadata c with
              | none =>
                  rw [hpk] at hck
                  rw [← hck]
                  intro hmem
                  cases hmem
              | some v =>
                  rw [hpk] at hck
                  obtain ⟨code, p, hpc, rfl⟩ := packKeyOf_shape metadata c v hpk
                  rw [← hck]
                  exact hmb.1 code p hpc
          · cases h

end ApplyDesc

/-! ### The expansion pass preserves hierarchy consistency -/

section PassInvariant

/-- The hierarchy entry recorded for a freshly expanded child under parent key
`pk` (lines 438-443). -/
def childEntry (pk : Str) (e : GroupingResult) : GroupTreeEntry :=
  { key := e.key, type := e.type, count := e.cards.length, parent := some pk }

lemma alGet_mem {K V : Type} [DecidableEq K] (l : List (K × V)) (k : K) (v : V)
    (h : alGet l k = some v) : (k, v) ∈ l := by
  induction l with
  | nil => simp [alGet] at h
  | cons kv rest ih =>
      obtain ⟨a, w⟩ := kv
      by_cases ha : a = k
      · subst ha
        have hw : w = v := by simpa [alGet] using h
        subst hw
        exact List.mem_cons_self _ _
      · simp only [alGet, if_neg ha] at h
        exact List.mem_cons_of_mem _ (ih h)

lemma expandGroup_eq (S : SortingModule) (grouping : GroupingType) (metadata : Metadata)
    (collator : Collator) (group : GroupingResult) (expanded : List GroupingResult)
    (h : expandGroup S grouping metadata collator group = some expanded) :
    ∃ gs, applyGrouping S group.cards grouping metadata collator = some gs ∧
      expanded = gs.map (fun g =>
        { cards := g.cards, key := group.key ++ barChar :: g.key,
          type := group.type ++ barChar :: g.type,
          aliased := g.aliased && group.aliased }) := by
  unfold expandGroup at h
  cases hap : applyGrouping S group.cards grouping metadata collator with
  | none => rw [hap] at h; simp at h
  | some gs =>
      rw [hap] at h
      simp only [Option.map_some', Option.some.injEq] at h
      exact ⟨gs, rfl, h.symm⟩

/-- One expansion pass preserves the hierarchy invariants.  Hypotheses: every
pending group's key is a depth-`d` composite of bar-free segments, pending
keys are distinct, pending cards are bar-free, every pending key is either
already recorded with its canonical entry or absent and parentless, no entry
points at a pending key, no recorded key is a child key of a pending group,
recorded keys are distinct, the hierarchy is consistent, and recorded keys
(resp. parents) have depth at most `d + 1` (resp. `d`).  Conclusions: the same
shape one level deeper for the output, plus consistency and preservation of
existing bindings. -/
lemma expandPass_hier (S : SortingModule) (grouping : GroupingType) (metadata : Metadata)
    (collator : Collator) (hdim : grouping ≠ GroupingType.subtype)
    (hmb : MetaBarFree metadata) (d : Nat) :
    ∀ (todo : List GroupingResult) (h : Hier) (out : List GroupingResult × Hier),
      expandPass S grouping metadata collator todo h = some out →
      (∀ g ∈ todo, KeyAt d g.key) →
      ((todo.map GroupingResult.key).Nodup) →
      (∀ g ∈ todo, ∀ c ∈ g.cards, CardBarFree c) →
      (∀ g ∈ todo, alGet h g.key = some (canonEntry g) ∨
        (alGet h g.key = Option.none ∧ splitParent g.key = Option.none)) →
      (∀ kv ∈ h, ∀ g ∈ todo, kv.2.parent ≠ some g.key) →
      (∀ kv ∈ h, ∀ g ∈ todo, ∀ s, BarFree s → kv.1 ≠ g.key ++ barChar :: s) →
      ((h.map Prod.fst).Nodup) →
      hierOK h →
      (∀ kv ∈ h, ∃ dk, KeyAt dk kv.1 ∧ dk ≤ d + 1) →
      (∀ kv ∈ h, ∀ p, kv.2.parent = some p → ∃ dp, KeyAt dp p ∧ dp ≤ d) →
      (∀ g ∈ out.1, KeyAt (d + 1) g.key) ∧
      ((out.1.map GroupingResult.key).Nodup) ∧
      (∀ g ∈ out.1, ∀ c ∈ g.cards, CardBarFree c) ∧
      (∀ g ∈ out.1, ∃ g0 ∈ todo, ∃ s, BarFree s ∧ g.key = g0.key ++ barChar :: s) ∧
      (∀ g ∈ out.1, alGet out.2 g.key = some (canonEntry g)) ∧
      ((out.2.map Prod.fst).Nodup) ∧
      hierOK out.2 ∧
      (∀ kv ∈ out.2, ∃ dk, KeyAt dk kv.1 ∧ dk ≤ d + 1) ∧
      (∀ kv ∈ out.2, ∀ p, kv.2.parent = some p → ∃ dp, KeyAt dp p ∧ dp ≤ d) ∧
      (∀ k e, alGet h k = some e → alGet out.2 k = some e) := by
  intro todo
  induction todo with
  | nil =>
      intro h out hout _ _ _ _ _ _ hTnd hTok hTkd hTpd
      rw [expandPass_nil] at hout
      cases hout
      exact ⟨by simp, by simp, by simp, by simp, by simp, hTnd, hTok, hTkd, hTpd,
        fun k e hk => hk⟩
  | cons group rest ih =>
      intro h out hout hT1 hT2 hTcb hT3a hT3b hT3c hTnd hTok hTkd hTpd
      have hgmem : group ∈ group :: rest := List.mem_cons_self _ _
      have hgkey : KeyAt d group.key := hT1 group hgmem
      simp only [List.map_cons, List.nodup_cons] at hT2
      cases hexp : expandGroup S grouping metadata collator group with
      | none =>
          rw [expandPass_cons_none S grouping metadata collator group rest h hexp] at hout
          cases hout
      | some expanded =>
          rw [expandPass_cons_some S grouping metadata collator group rest h expanded
            hexp] at hout
          set h1 := hinsert h group.key
            { key := group.key, type := group.type, count := group.cards.length,
              parent := splitParent group.key } with hh1
          set h2 := expanded.foldl
            (fun hh gg => hinsert hh gg.key
              { key := gg.key, type := gg.type, count := gg.cards.length,
                parent := some group.key }) h1 with hh2
          cases hrest : expandPass S grouping metadata collator rest h2 with
          | none => rw [hrest] at hout; cases hout
          | some p =>
              obtain ⟨rest', h'⟩ := p
              rw [hrest] at hout
              cases hout
              -- description of the expansion
              obtain ⟨gs, hap, hexpeq⟩ :=
                expandGroup_eq S grouping metadata collator group expanded hexp
              obtain ⟨dA, dB, dC, dD⟩ :=
                applyGrouping_desc S group.cards grouping metadata collator gs hap
              have hsum := dC hdim
              have hbfgs : ∀ g ∈ gs, BarFree g.key := dD (hTcb group hgmem) hmb
              have heshape : ∀ e ∈ expanded, ∃ g0 ∈ gs,
                  e.key = group.key ++ barChar :: g0.key ∧ e.cards = g0.cards := by
                intro e he
                rw [hexpeq] at he
                rcases List.mem_map.mp he with ⟨g0, hg0, rfl⟩
                exact ⟨g0, hg0, rfl, rfl⟩
              have hekeyat : ∀ e ∈ expanded, KeyAt (d + 1) e.key := by
                intro e he
                obtain ⟨g0, hg0, hek, -⟩ := heshape e he
                rw [hek]
                exact KeyAt_child d group.key g0.key hgkey (hbfgs g0 hg0)
              have hecards : ∀ e ∈ expanded, ∀ c ∈ e.cards, c ∈ group.cards := by
                intro e he c hc
                obtain ⟨g0, hg0, -, hecc⟩ := heshape e he
                rw [hecc] at hc
                exact dB g0 hg0 c hc
              have heNodup : (expanded.map GroupingResult.key).Nodup := by
                rw [hexpeq, List.map_map]
                have hmeq : (GroupingResult.key ∘ fun g =>
                    ({ cards := g.cards, key := group.key ++ barChar :: g.key,
                       type := group.type ++ barChar :: g.type,
                       aliased := g.aliased && group.aliased } : GroupingResult)) =
                    (fun s => group.key ++ barChar :: s) ∘ GroupingResult.key := rfl
                rw [hmeq, ← List.map_map]
                refine List.Nodup.map ?_ dA
                intro s1 s2 hs
                have := List.append_cancel_left hs
                simpa using this
              have hesum : (expanded.map (fun e => e.cards.length)).sum =
                  group.cards.length := by
                rw [hexpeq, List.map_map, ← hsum]
                rfl
              have hchildsp : ∀ e ∈ expanded, splitParent e.key = some group.key := by
                intro e he
                obtain ⟨g0, hg0, hek, -⟩ := heshape e he
                rw [hek]
                exact splitParent_child d group.key g0.key hgkey (hbfgs g0 hg0)
              -- the canonical re-insertion of the group's own entry
              have hF : (h1.map Prod.fst).Nodup ∧
                  alGet h1 group.key = some (canonEntry group) ∧
                  (∀ k e, alGet h k = some e → alGet h1 k = some e) ∧
                  (∀ kv ∈ h1, kv ∈ h ∨ kv = (group.key, canonEntry group)) ∧
                  (∀ q, childSum h1 q = childSum h q) ∧
                  (∀ k, alGet h k = Option.none → ¬k = group.key →
                    alGet h1 k = Option.none) ∧
                  (∀ q, splitParent group.key = some q → ¬q = group.key ∧
                    ∃ pe, alGet h q = some pe ∧ pe.count = childSum h q) ∧
                  (∀ q, splitParent group.key = some q →
                    ∃ dp, KeyAt dp q ∧ dp ≤ d) ∧
                  (∀ g' ∈ group :: rest,
                    (canonEntry group).parent ≠ some g'.key) := by
                rcases hT3a group hgmem with hpres | ⟨habs, hsp⟩
                · have hh1eq : h1 = h := by
                    rw [hh1]
                    exact hinsert_present_same h group.key (canonEntry group) hTnd hpres
                  have hcmem : (group.key, canonEntry group) ∈ h := alGet_mem _ _ _ hpres
                  rw [hh1eq]
                  refine ⟨hTnd, hpres, fun k e hk => hk, fun kv hkv => Or.inl hkv,
                    fun q => rfl, fun k hk _ => hk, ?_, ?_, ?_⟩
                  · intro q hq
                    refine ⟨?_, hTok _ hcmem q hq⟩
                    intro hqe
                    exact hT3b _ hcmem group hgmem (hqe ▸ hq)
                  · intro q hq
                    exact hTpd _ hcmem q hq
                  · intro g' hg'
                    exact hT3b _ hcmem g' hg'
                · have hh1eq : h1 = h ++ [(group.key, canonEntry group)] := by
                    rw [hh1]
                    exact hinsert_absent h group.key (canonEntry group) habs
                  rw [hh1eq]
                  refine ⟨?_, ?_, ?_, ?_, ?_, ?_, ?_, ?_, ?_⟩
                  · rw [List.map_append, List.nodup_append]
                    refine ⟨hTnd, by simp, ?_⟩
                    intro a ha hb
                    simp only [List.map_cons, List.map_nil, List.mem_singleton] at hb
                    subst hb
                    exact (alGet_eq_none_iff h group.key).mp habs ha
                  · exact alGet_append_single_self h group.key _ habs
                  · intro k e hk
                    exact alGet_append_left h _ k e hk
                  · intro kv hkv
                    rcases List.mem_append.mp hkv with hkv | hkv
                    · exact Or.inl hkv
                    · exact Or.inr (List.mem_singleton.mp hkv)
                  · intro q
                    rw [childSum_append]
                    have hz : childSum [(group.key, canonEntry group)] q = 0 := by
                      simp [childSum, canonEntry, hsp]
                    rw [hz]
                    omega
                  · intro k hk hkne
                    rw [alGet_append_single_ne h group.key k _ (fun e => hkne e.symm)]
                    exact hk
                  · intro q hq
                    rw [hsp] at hq
                    cases hq
                  · intro q hq
                    rw [hsp] at hq
                    cases hq
                  · intro g' hg'
                    show splitParent group.key ≠ some g'.key
                    rw [hsp]
                    simp
              obtain ⟨hF1, hF2, hF3, hF4, hF5, hF6, hF7, hF8, hF9⟩ := hF
              -- the freshly recorded children
              have hfresh : ∀ e ∈ expanded, alGet h1 e.key = Option.none := by
                intro e he
                obtain ⟨g0, hg0, hek, -⟩ := heshape e he
                have hhnone : alGet h e.key = Option.none := by
                  rw [alGet_eq_none_iff]
                  intro hmem
                  rcases List.mem_map.mp hmem with ⟨kv, hkv, hkveq⟩
                  exact hT3c kv hkv group hgmem g0.key (hbfgs g0 hg0)
                    (by rw [hkveq, hek])
                have hne : ¬e.key = group.key :=
                  KeyAt_ne (d + 1) d e.key group.key (hekeyat e he) hgkey (by omega)
                exact hF6 e.key hhnone hne
              have hh2eq : h2 = h1 ++ expanded.map (fun e => (e.key,
                  childEntry group.key e)) := by
                rw [hh2]
                exact foldl_hinsert_fresh (childEntry group.key) expanded h1 hfresh heNodup
              have hrowfst : (expanded.map (fun e => (e.key, childEntry group.key e))).map
                  Prod.fst = expanded.map GroupingResult.key := by
                rw [List.map_map]
                rfl
              -- lookups in h2
              have hG2 : alGet h2 group.key = some (canonEntry group) := by
                rw [hh2eq]
                exact alGet_append_left _ _ _ _ hF2
              have hG3 : ∀ e ∈ expanded, alGet h2 e.key = some (childEntry group.key e) := by
                intro e he
                rw [hh2eq, alGet_append_none _ _ _ (hfresh e he)]
                exact alGet_map_mem (childEntry group.key) expanded heNodup e he
              have hG4 : ∀ k e, alGet h k = some e → alGet h2 k = some e := by
                intro k e hk
                rw [hh2eq]
                exact alGet_append_left _ _ _ _ (hF3 k e hk)
              have hG5 : ∀ kv ∈ h2, (kv ∈ h ∨ kv = (group.key, canonEntry group)) ∨
                  ∃ e ∈ expanded, kv = (e.key, childEntry group.key e) := by
                intro kv hkv
                rw [hh2eq] at hkv
                rcases List.mem_append.mp hkv with hkv | hkv
                · exact Or.inl (hF4 kv hkv)
                · rcases List.mem_map.mp hkv with ⟨e, he, rfl⟩
                  exact Or.inr ⟨e, he, rfl⟩
              have hG1 : (h2.map Prod.fst).Nodup := by
                rw [hh2eq, List.map_append, hrowfst, List.nodup_append]
                refine ⟨hF1, heNodup, ?_⟩
                intro a ha hb
                rcases List.mem_map.mp hb with ⟨e, he, rfl⟩
                exact (alGet_eq_none_iff h1 e.key).mp (hfresh e he) ha
              -- child sums in h2
              have hrowsum : ∀ q,
                  childSum (expanded.map (fun e => (e.key, childEntry group.key e))) q =
                    if q = group.key then group.cards.length else 0 := by
                intro q
                unfold childSum
                rw [List.map_map]
                have hfun : ((fun kv : Str × GroupTreeEntry =>
                      if kv.2.parent = some q then kv.2.count else 0) ∘
                    fun e => (e.key, childEntry group.key e)) =
                    (fun e : GroupingResult =>
                      if group.key = q then e.cards.length else 0) := by
                  funext e
                  simp [Function.comp, childEntry]
                rw [hfun]
                by_cases hq : q = group.key
                · subst hq
                  have hid : (fun e : GroupingResult =>
                      if group.key = group.key then e.cards.length else 0) =
                      fun e : GroupingResult => e.cards.length := by
                    funext e
                    rw [if_pos rfl]
                  rw [hid, hesum, if_pos rfl]
                · have hid : (fun e : GroupingResult =>
                      if group.key = q then e.cards.length else 0) =
                      fun _ : GroupingResult => 0 := by
                    funext e
                    rw [if_neg (fun he => hq he.symm)]
                  rw [hid, if_neg hq]
                  simp
              have hG6 : ∀ q, childSum h2 q =
                  childSum h q + (if q = group.key then group.cards.length else 0) := by
                intro q
                rw [hh2eq, childSum_append, hF5, hrowsum]
              have hzero : childSum h group.key = 0 :=
                childSum_eq_zero h group.key (fun kv hkv => hT3b kv hkv group hgmem)
              -- consistency of h2
              have hG8 : hierOK h2 := by
                intro kv hkv q hq
                rcases hG5 kv hkv with hkv' | ⟨e, he, rfl⟩
                · have hqne : ¬q = group.key := by
                    rcases hkv' with hkv' | rfl
                    · intro hqe
                      exact hT3b kv hkv' group hgmem (by rw [hq, hqe])
                    · intro hqe
                      exact hF9 group hgmem (by rw [← hqe]; exact hq)
                  have hold : ∃ pe, alGet h q = some pe ∧ pe.count = childSum h q := by
                    rcases hkv' with hkv' | rfl
                    · exact hTok kv hkv' q hq
                    · exact (hF7 q hq).2
                  obtain ⟨pe, hpe, hpc⟩ := hold
                  refine ⟨pe, hG4 q pe hpe, ?_⟩
                  rw [hG6, if_neg hqne, hpc]
                  omega
                · have hq2 : some group.key = some q := hq
                  have hq' : group.key = q := Option.some.inj hq2
                  subst hq'
                  refine ⟨canonEntry group, hG2, ?_⟩
                  rw [hG6, if_pos rfl, hzero]
                  simp [canonEntry]
              -- depth bounds in h2
              have hG9 : ∀ kv ∈ h2, ∃ dk, KeyAt dk kv.1 ∧ dk ≤ d + 1 := by
                intro kv hkv
                rcases hG5 kv hkv with hkv' | ⟨e, he, rfl⟩
                · rcases hkv' with hkv' | rfl
                  · exact hTkd kv hkv'
                  · exact ⟨d, hgkey, by omega⟩
                · exact ⟨d + 1, hekeyat e he, le_refl _⟩
              have hG10 : ∀ kv ∈ h2, ∀ q, kv.2.parent = some q →
                  ∃ dp, KeyAt dp q ∧ dp ≤ d := by
                intro kv hkv q hq
                rcases hG5 kv hkv with hkv' | ⟨e, he, rfl⟩
                · rcases hkv' with hkv' | rfl
                  · exact hTpd kv hkv' q hq
                  · exact hF8 q hq
                · have hq2 : some group.key = some q := hq
                  have hq' : group.key = q := Option.some.inj hq2
                  subst hq'
                  exact ⟨d, hgkey, le_refl _⟩
              -- invariant hypotheses for the tail
              have hT3a' : ∀ g' ∈ rest, alGet h2 g'.key = some (canonEntry g') ∨
                  (alGet h2 g'.key = Option.none ∧ splitParent g'.key = Option.none) := by
                intro g' hg'
                have hg'ne : ¬g'.key = group.key := by
                  intro he
                  exact hT2.1 (he ▸ List.mem_map_of_mem GroupingResult.key hg')
                rcases hT3a g' (List.mem_cons_of_mem _ hg') with hpres' | ⟨habs', hsp'⟩
                · exact Or.inl (hG4 _ _ hpres')
                · refine Or.inr ⟨?_, hsp'⟩
                  rw [hh2eq, alGet_append_none _ _ _ (hF6 g'.key habs' hg'ne)]
                  apply alGet_map_none
                  intro e he
                  exact fun hek => (KeyAt_ne (d + 1) d e.key g'.key (hekeyat e he)
                    (hT1 g' (List.mem_cons_of_mem _ hg')) (by omega)) hek
              have hT3b' : ∀ kv ∈ h2, ∀ g' ∈ rest, kv.2.parent ≠ some g'.key := by
                intro kv hkv g' hg'
                have hg'ne : ¬group.key = g'.key := by
                  intro he
                  exact hT2.1 (he ▸ List.mem_map_of_mem GroupingResult.key hg')
                rcases hG5 kv hkv with hkv' | ⟨e, he, rfl⟩
                · rcases hkv' with hkv' | rfl
                  · exact hT3b kv hkv' g' (List.mem_cons_of_mem _ hg')
                  · exact hF9 g' (List.mem_cons_of_mem _ hg')
                · show some group.key ≠ some g'.key
                  intro hco
                  exact hg'ne (Option.some.inj hco)
              have hT3c' : ∀ kv ∈ h2, ∀ g' ∈ rest, ∀ s, BarFree s →
                  kv.1 ≠ g'.key ++ barChar :: s := by
                intro kv hkv g' hg' s hs
                have hg'key : KeyAt d g'.key := hT1 g' (List.mem_cons_of_mem _ hg')
                have hg'ne : ¬group.key = g'.key := by
                  intro he
                  exact hT2.1 (he ▸ List.mem_map_of_mem GroupingResult.key hg')
                rcases hG5 kv hkv with hkv' | ⟨e, he, rfl⟩
                · rcases hkv' with hkv' | rfl
                  · exact hT3c kv hkv' g' (List.mem_cons_of_mem _ hg') s hs
                  · show group.key ≠ g'.key ++ barChar :: s
                    exact KeyAt_ne d (d + 1) group.key (g'.key ++ barChar :: s) hgkey
                      (KeyAt_child d g'.key s hg'key hs) (by omega)
                · show e.key ≠ g'.key ++ barChar :: s
                  obtain ⟨g0, hg0, hek, -⟩ := heshape e he
                  rw [hek]
                  intro hco
                  exact hg'ne (KeyAt_child_inj d group.key g'.key g0.key s hgkey hg'key
                    (hbfgs g0 hg0) hs hco).1
              -- the tail
              obtain ⟨O1r, O2r, O3r, Oprefr, Oar, Ondr, Ookr, Okdr, Opdr, O10r⟩ :=
                ih h2 (rest', h') hrest
                  (fun g' hg' => hT1 g' (List.mem_cons_of_mem _ hg')) hT2.2
                  (fun g' hg' => hTcb g' (List.mem_cons_of_mem _ hg'))
                  hT3a' hT3b' hT3c' hG1 hG8 hG9 hG10
              -- assemble the conclusions for (expanded ++ rest', h')
              refine ⟨?_, ?_, ?_, ?_, ?_, Ondr, Ookr, Okdr, Opdr, ?_⟩
              · intro g hg
                rcases List.mem_append.mp hg with hg | hg
                · exact hekeyat g hg
                · exact O1r g hg
              · rw [List.map_append, List.nodup_append]
                refine ⟨heNodup, O2r, ?_⟩
                intro a ha hb
                rcases List.mem_map.mp ha with ⟨e, he, rfl⟩
                rcases List.mem_map.mp hb with ⟨g'', hg'', hgk⟩
                obtain ⟨g0, hg0, hek, -⟩ := heshape e he
                obtain ⟨gr, hgr, sr, hsr, hgrk⟩ := Oprefr g'' hg''
                rw [← hgk, hgrk] at hek
                have := (KeyAt_child_inj d gr.key group.key sr g0.key
                  (hT1 gr (List.mem_cons_of_mem _ hgr)) hgkey hsr (hbfgs g0 hg0)
                  hek).1
                exact hT2.1 (this ▸ List.mem_map_of_mem GroupingResult.key hgr)
              · intro g hg c hc
                rcases List.mem_append.mp hg with hg | hg
                · exact hTcb group hgmem c (hecards g hg c hc)
                · exact O3r g hg c hc
              · intro g hg
                rcases List.mem_append.mp hg with hg | hg
                · obtain ⟨g0, hg0, hek, -⟩ := heshape g hg
                  exact ⟨group, hgmem, g0.key, hbfgs g0 hg0, hek⟩
                · obtain ⟨gr, hgr, sr, hsr, hgrk⟩ := Oprefr g hg
                  exact ⟨gr, List.mem_cons_of_mem _ hgr, sr, hsr, hgrk⟩
              · intro g hg
                rcases List.mem_append.mp hg with hg | hg
                · have hce : canonEntry g = childEntry group.key g := by
                    unfold canonEntry childEntry
                    rw [hchildsp g hg]
                  rw [hce]
                  exact O10r g.key _ (hG3 g hg)
                · exact Oar g hg
              · intro k e hk
                exact O10r k e (hG4 k e hk)

end PassInvariant

/-! ### Hierarchy consistency of the whole pass fold -/

section FoldHier

/-- Iterating expansion passes preserves hierarchy consistency, starting from
any state satisfying the pass invariants at depth `d`. -/
lemma foldPasses_hier (S : SortingModule) (metadata : Metadata) (collator : Collator)
    (hmb : MetaBarFree metadata) :
    ∀ (dims : List GroupingType) (d : Nat) (data : List GroupingResult) (h : Hier)
      (out : List GroupingResult × Hier),
      dims.foldlM (fun acc grouping => expandPass S grouping metadata collator acc.1 acc.2)
        (data, h) = some out →
      (∀ x ∈ dims, x ≠ GroupingType.subtype) →
      (∀ g ∈ data, KeyAt d g.key) →
      ((data.map GroupingResult.key).Nodup) →
      (∀ g ∈ data, ∀ c ∈ g.cards, CardBarFree c) →
      (∀ g ∈ data, alGet h g.key = some (canonEntry g) ∨
        (alGet h g.key = Option.none ∧ splitParent g.key = Option.none)) →
      (∀ kv ∈ h, ∀ g ∈ data, kv.2.parent ≠ some g.key) →
      (∀ kv ∈ h, ∀ g ∈ data, ∀ s, BarFree s → kv.1 ≠ g.key ++ barChar :: s) →
      ((h.map Prod.fst).Nodup) →
      hierOK h →
      (∀ kv ∈ h, ∃ dk, KeyAt dk kv.1 ∧ dk ≤ d + 1) →
      (∀ kv ∈ h, ∀ p, kv.2.parent = some p → ∃ dp, KeyAt dp p ∧ dp ≤ d) →
      hierOK out.2 := by
  intro dims
  induction dims with
  | nil =>
      intro d data h out hout _ _ _ _ _ _ _ _ hok _ _
      simp only [List.foldlM_nil] at hout
      cases hout
      exact hok
  | cons dim dims ih =>
      intro d data h out hout hsub hT1 hT2 hTcb hT3a hT3b hT3c hTnd hTok hTkd hTpd
      simp only [List.foldlM_cons] at hout
      cases hpass : expandPass S dim metadata collator data h with
      | none => rw [hpass] at hout; simp at hout
      | some mid =>
          rw [hpass] at hout
          simp only [Option.bind_eq_bind, Option.some_bind] at hout
          have hdim : dim ≠ GroupingType.subtype := hsub dim (List.mem_cons_self _ _)
          obtain ⟨O1, O2, O3, Opref, Oa, Ond, Ook, Okd, Opd, O10⟩ :=
            expandPass_hier S dim metadata collator hdim hmb d data h mid hpass
              hT1 hT2 hTcb hT3a hT3b hT3c hTnd hTok hTkd hTpd
          refine ih (d + 1) mid.1 mid.2 out hout
            (fun x hx => hsub x (List.mem_cons_of_mem _ hx))
            O1 O2 O3 (fun g hg => Or.inl (Oa g hg)) ?_ ?_ Ond Ook
            (fun kv hkv => (Okd kv hkv).imp (fun dk hdk => ⟨hdk.1, by omega⟩))
            (fun kv hkv p hp => (Opd kv hkv p hp).imp (fun dp hdp => ⟨hdp.1, by omega⟩))
          · intro kv hkv g hg hco
            obtain ⟨dp, hdp, hdple⟩ := Opd kv hkv g.key hco
            have := KeyAt_unique dp (d + 1) g.key hdp (O1 g hg)
            omega
          · intro kv hkv g hg s hs hco
            obtain ⟨dk, hdk, hdkle⟩ := Okd kv hkv
            have hch : KeyAt (d + 1 + 1) (g.key ++ barChar :: s) :=
              KeyAt_child (d + 1) g.key s (O1 g hg) hs
            have := KeyAt_unique dk (d + 1 + 1) _ (hco ▸ hdk) hch
            omega

end FoldHier

instance (gc : GroupedCards) : Decidable (hierConsistent gc) := by
  unfold hierConsistent
  infer_instance

/-- The empty metadata index trivially has bar-free codes. -/
lemma metaBarFree_meta0 : MetaBarFree meta0 :=
  ⟨fun _ _ hp => Option.noConfusion hp, fun _ _ hp => Option.noConfusion hp⟩

/-- A card whose subtype code is outside the three fixed subtype buckets. -/
def cardU : Card := { baseCard with subtype_code := some (str "ultra-rare") }

/-- Counterexample to C3 as stated: with dimensions `["type", "subtype"]` and
one asset card of subtype `"ultra-rare"`, the subtype pass drops the card (its
bucket does not exist) yet returns a surviving empty `weakness` group, so the
hierarchy records a child `"asset|weakness"` with count 0 under parent
`"asset"` with count 1: the parent's count does not equal the sum of its
direct children's counts. -/
theorem c3_parent_consistency_counterexample :
    getGroupedCards S0 [GroupingType.type, GroupingType.subtype] [cardU] sortBFirst meta0
        coll0 =
      some { data := [{ cards := [], key := str "asset|weakness",
                        type := str "type|subtype", aliased := false }],
             hierarchy := [
               (str "asset",
                { key := str "asset", type := str "type", count := 1,
                  parent := Option.none }),
               (str "asset|weakness",
                { key := str "asset|weakness", type := str "type|subtype", count := 0,
                  parent := some (str "asset") })] } ∧
    ¬hierConsistent
      { data := [{ cards := [], key := str "asset|weakness",
                   type := str "type|subtype", aliased := false }],
        hierarchy := [
          (str "asset",
           { key := str "asset", type := str "type", count := 1,
             parent := Option.none }),
          (str "asset|weakness",
           { key := str "asset|weakness", type := str "type|subtype", count := 0,
             parent := some (str "asset") })] } := by
  constructor
  · decide
  · decide

/-- C3 (amended): for every `getGroupedCards` call in which the card fields
and metadata codes that become key segments are free of the composite-key
separator `"|"`, and in which `subtype` is not used as a non-first dimension
(the subtype partitioner drops cards with unlisted subtype codes, so a later
`subtype` pass breaks the parent/children count equation), the returned
hierarchy satisfies the claim: every entry with a non-null parent points at a
present entry whose recorded count equals the sum of its direct children's
counts (such a parent always has at least one child, namely the pointing
entry, so the claim's childless branch is vacuous for it). -/
theorem c3_parent_consistency (S : SortingModule) (dims : List GroupingType)
    (cards : List Card) (sortFunction : Card → Card → Int) (metadata : Metadata)
    (collator : Collator) (r : GroupedCards)
    (hcb : ∀ c ∈ cards, CardBarFree c) (hmb : MetaBarFree metadata)
    (hsub : ∀ x ∈ (if dims.isEmpty then [GroupingType.none] else dims).tail,
      x ≠ GroupingType.subtype)
    (h : getGroupedCards S dims cards sortFunction metadata collator = some r) :
    hierConsistent r := by
  unfold getGroupedCards at h
  cases hdat : getGroupedCardsData S dims cards metadata collator with
  | none => rw [hdat] at h; simp at h
  | some pr =>
      rw [hdat] at h
      simp only [Option.map_some', Option.some.injEq] at h
      subst h
      apply hierConsistent_of_hierOK
      show hierOK pr.2
      unfold getGroupedCardsData at hdat
      have heffne : (if dims.isEmpty then [GroupingType.none] else dims) ≠ [] := by
        by_cases he : dims.isEmpty
        · simp [he]
        · rw [if_neg he]
          intro hd
          exact he (by simp [hd])
      cases he2 : (if dims.isEmpty then [GroupingType.none] else dims) with
      | nil => exact absurd he2 heffne
      | cons e0 etail =>
          rw [he2] at hdat hsub
          simp only [List.headD_cons, List.tail_cons] at hdat hsub
          cases hap : applyGrouping S cards e0 metadata collator with
          | none => rw [hap] at hdat; simp at hdat
          | some data0 =>
              rw [hap] at hdat
              simp only [Option.bind_eq_bind, Option.some_bind] at hdat
              obtain ⟨dA, dB, dC, dD⟩ :=
                applyGrouping_desc S cards e0 metadata collator data0 hap
              have hbf0 : ∀ g ∈ data0, BarFree g.key := dD hcb hmb
              by_cases hlen : 1 < (e0 :: etail).length
              · rw [if_pos hlen] at hdat
                exact foldPasses_hier S metadata collator hmb etail 1 data0 [] pr hdat
                  hsub
                  (fun g hg => KeyAt_one g.key (hbf0 g hg))
                  dA
                  (fun g hg c hc => hcb c (dB g hg c hc))
                  (fun g hg => Or.inr ⟨rfl, splitParent_root g.key (hbf0 g hg)⟩)
                  (by intro kv hkv; cases hkv)
                  (by intro kv hkv; cases hkv)
                  List.nodup_nil
                  (by intro kv hkv; cases hkv)
                  (by intro kv hkv; cases hkv)
                  (by intro kv hkv; cases hkv)
              · rw [if_neg hlen] at hdat
                cases hdat
                have hier0eq : data0.foldl (fun hh group => hinsert hh group.key
                    { key := group.key, type := group.type, count := group.cards.length,
                      parent := Option.none }) ([] : Hier) =
                    data0.map (fun g => (g.key,
                      ({ key := g.key, type := g.type, count := g.cards.length,
                         parent := Option.none } : GroupTreeEntry))) := by
                  have hins := foldl_hinsert_fresh
                    (fun g =>
                      ({ key := g.key, type := g.type, count := g.cards.length,
                         parent := Option.none } : GroupTreeEntry))
                    data0 [] (fun g _ => rfl) dA
                  simpa using hins
                intro kv hkv q hq
                rw [hier0eq] at hkv
                rcases List.mem_map.mp hkv with ⟨g, hg, rfl⟩
                simp at hq

/-- Witness for C3 (amended) at a concrete input: dimensions
`["type", "base_upgrades"]` over a single level-0 asset card.  The hierarchy
contains the empty `"asset|upgrade"` child (the `omitEmptyGroupings` bug), but
its count 0 still participates correctly in the parent's sum `1 + 0 = 1`. -/
theorem c3_parent_consistency_witness :
    (∀ c ∈ [baseCard], CardBarFree c) ∧
    MetaBarFree meta0 ∧
    (∀ x ∈ (if ([GroupingType.type, GroupingType.base_upgrades] :
        List GroupingType).isEmpty then [GroupingType.none]
        else [GroupingType.type, GroupingType.base_upgrades]).tail,
      x ≠ GroupingType.subtype) ∧
    getGroupedCards S0 [GroupingType.type, GroupingType.base_upgrades] [baseCard]
        sortBFirst meta0 coll0 =
      some { data := [
               { cards := [baseCard], key := str "asset|level0",
                 type := str "type|base_upgrades", aliased := false },
               { cards := [], key := str "asset|upgrade",
                 type := str "type|base_upgrades", aliased := false }],
             hierarchy := [
               (str "asset",
                { key := str "asset", type := str "type", count := 1,
                  parent := Option.none }),
               (str "asset|level0",
                { key := str "asset|level0", type := str "type|base_upgrades",
                  count := 1, parent := some (str "asset") }),
               (str "asset|upgrade",
                { key := str "asset|upgrade", type := str "type|base_upgrades",
                  count := 0, parent := some (str "asset") })] } ∧
    hierConsistent
      { data := [
          { cards := [baseCard], key := str "asset|level0",
            type := str "type|base_upgrades", aliased := false },
          { cards := [], key := str "asset|upgrade",
            type := str "type|base_upgrades", aliased := false }],
        hierarchy := [
          (str "asset",
           { key := str "asset", type := str "type", count := 1,
             parent := Option.none }),
          (str "asset|level0",
           { key := str "asset|level0", type := str "type|base_upgrades",
             count := 1, parent := some (str "asset") }),
          (str "asset|upgrade",
           { key := str "asset|upgrade", type := str "type|base_upgrades",
             count := 0, parent := some (str "asset") })] } :=
  ⟨by decide, metaBarFree_meta0, by decide, by decide,
   c3_parent_consistency S0 [GroupingType.type, GroupingType.base_upgrades] [baseCard]
     sortBFirst meta0 coll0 _ (by decide) metaBarFree_meta0 (by decide) (by decide)⟩

end Arkham
